import Mathlib

/-! The whisper.cpp command-line examples: a shallow embedding.

Definitions follow `examples/stream/stream.cpp`, `main.cpp` and
`bindings/javascript/emscripten.cpp`.  Audio samples are kept abstract
(a type `α` with a default value standing for `0.0f`): the streaming loop
only moves samples around.  The model context is an abstract type `C`,
and `whisper_full`, which lives in `whisper.cpp`, is a parameter.  The two
sampling functions that `whisper.h` only declares are modelled from the
specification, in the namespace `Sampling`.
-/

set_option autoImplicit false

/-! ## Vector and integer helpers -/

/-- The `std::vector::resize(n)` operation: keep the first `n` elements, pad with the default value. -/
def vec_resize {α : Type} [Inhabited α] (v : List α) (n : Nat) : List α :=
  v.take n ++ List.replicate (n - v.length) default

/-- The loop `for (i = 0; i < n; i++) v[off + i] = src(i);`, run in increasing `i`. -/
def vec_fill {α : Type} (v : List α) (off n : Nat) (src : Nat → α) : List α :=
  (List.range n).foldl (fun w i => w.set (off + i) (src i)) v

/-- Conversion of an `int` value to `size_t` (64 bits), modulo `2^64`. -/
def to_size_t (x : Int) : Nat := (x % (2 ^ 64 : Int)).toNat

/-- Product of two `size_t` values, modulo `2^64`. -/
def mul_size_t (a b : Nat) : Nat := (a * b) % 2 ^ 64

/-- The value of `sizeof(float)`. -/
def sizeof_float : Nat := 4

/-! ## `printf` helpers -/

/-- The C cast `(int) x` of a 64-bit integer: reduction into `[-2^31, 2^31)`. -/
def to_int32 (x : Int) : Int := (x + 2 ^ 31) % 2 ^ 32 - 2 ^ 31

/-- The conversion `%0wd` of `printf`: decimal digits, a leading minus sign for
negative values, zero-padded on the left to at least `w` characters. -/
def fmt_0d (w : Nat) (x : Int) : List Char :=
  let ds := Nat.toDigits 10 x.natAbs
  if x < 0 then '-' :: (List.replicate (w - 1 - ds.length) '0' ++ ds)
  else List.replicate (w - ds.length) '0' ++ ds

/-- The call `snprintf(buf, size, ...)` followed by `std::string(buf)`: at most `size - 1` characters are kept. -/
def snprintf (size : Nat) (out : List Char) : String :=
  String.mk (out.take (size - 1))

/-- The character of a decimal digit. -/
def digit_char (d : Nat) : Char := Char.ofNat (48 + d % 10)

/-- Spec side: a two-digit zero-padded decimal field. -/
def field2 (n : Nat) : List Char := [digit_char (n / 10), digit_char n]

/-- Spec side: a three-digit zero-padded decimal field. -/
def field3 (n : Nat) : List Char := [digit_char (n / 100), digit_char (n / 10), digit_char n]

namespace Stream

/-! ## `stream.cpp`: timestamps -/

/-- The function `to_timestamp` of `stream.cpp` (lines 24-34); `t` is in units of 10 ms. -/
def to_timestamp (t : Int) : String :=
  let sec := Int.tdiv t 100
  let msec := t - sec * 100
  let min := Int.tdiv sec 60
  let sec := sec - min * 60
  snprintf 32 (fmt_0d 2 (to_int32 min) ++ [':'] ++ fmt_0d 2 (to_int32 sec) ++ ['.'] ++
    fmt_0d 3 (to_int32 msec))

/-! ## `stream.cpp`: parameters -/

/-- The `whisper_params` struct of `stream.cpp`; `n_threads` defaults to a hardware-dependent value. -/
structure whisper_params where
  seed : Int := -1
  n_threads : Int
  step_ms : Int := 3000
  length_ms : Int := 10000
  verbose : Bool := false
  translate : Bool := false
  no_context : Bool := true
  print_special_tokens : Bool := false
  no_timestamps : Bool := true
  language : String := "en"
  model : String := "models/ggml-base.en.bin"
  fname_out : String := ""
deriving DecidableEq, Repr

/-- The `whisper_full_params` struct of `whisper.h` (the callback pointers are left out). -/
structure whisper_full_params where
  n_threads : Int
  offset_ms : Int
  translate : Bool
  no_context : Bool
  print_special_tokens : Bool
  print_progress : Bool
  print_realtime : Bool
  print_timestamps : Bool
  language : String
deriving DecidableEq, Repr

/-- The sample counts `main` derives from the parameters before the loop:
`n_samples` and `n_samples_len` come from floating-point expressions and are
taken as given; `n_new_line` is `length_ms / step_ms - 1`. -/
structure Sizes where
  n_samples : Int
  n_samples_len : Int
  n_new_line : Int
deriving DecidableEq, Repr

/-- The line `const int n_new_line = params.length_ms / params.step_ms - 1;`
(C division truncates; `step_ms = 0` is undefined in C). -/
def n_new_line (params : whisper_params) : Int :=
  Int.tdiv params.length_ms params.step_ms - 1

/-- Lines 225-231 of `stream.cpp`: the capability check; the second component
tells whether the warning was printed. The block has no `return` or `exit`. -/
def capability_check (is_multilingual : Int) (params : whisper_params) :
    whisper_params × Bool :=
  if is_multilingual = 0 then
    if params.language ≠ "en" ∨ params.translate = true then
      ({ params with language := "en", translate := false }, true)
    else (params, false)
  else (params, false)

/-- Lines 314-323 of `stream.cpp`: the parameters handed to `whisper_full`,
starting from `whisper_full_default_params(WHISPER_SAMPLING_GREEDY)`. -/
def inference_params (dflt : whisper_full_params) (params : whisper_params) :
    whisper_full_params :=
  { dflt with
    print_progress := false
    print_special_tokens := params.print_special_tokens
    print_realtime := false
    print_timestamps := !params.no_timestamps
    translate := params.translate
    no_context := params.no_context
    language := params.language
    n_threads := params.n_threads }

/-! ## `stream.cpp`: the main audio loop -/

/-- The variables of `main` that live across iterations, together with the
capture queue of the audio device and the last values of two loop locals.
The `int` counter `n_iter` is a natural number here, counted without the `2^31` bound. -/
structure LoopState (α C : Type) where
  queue : List α
  pcmf32 : List α
  pcmf32_old : List α
  n_iter : Nat
  ctx : C
  n_samples_new : Nat
  n_samples_take : Nat
deriving DecidableEq, Repr

/-- What the outside world does during one iteration: whether `SDL_QUIT` was
polled, the samples the device queued since the previous dequeue, and the
samples it queues during each successive `SDL_Delay(1)`. -/
structure IterEnv (α : Type) where
  quit : Bool
  captured : List α
  arrivals : List (List α)
deriving DecidableEq, Repr

/-- Outcome of one pass through the loop body. -/
inductive IterResult (σ : Type) where
  | next (s : σ)
  | exit (code : Int)
  | waiting
  | undefined
deriving DecidableEq, Repr

/-- The call `SDL_GetQueuedAudioSize`: bytes queued, four per sample (the
`Uint32` result is taken without wrap-around: the queue stays far below `2^32` bytes). -/
def SDL_GetQueuedAudioSize {α : Type} (queue : List α) : Nat :=
  queue.length * sizeof_float

/-- The call `SDL_DequeueAudio(dev, dst, len)`: the samples handed out and the queue left. -/
def SDL_DequeueAudio {α : Type} (queue : List α) (len : Nat) : List α × List α :=
  (queue.take (len / sizeof_float), queue.drop (len / sizeof_float))

/-- Lines 283-286: when not in the first iteration and more than
`2*n_samples*sizeof(float)` bytes are queued, `SDL_ClearQueuedAudio`. -/
def drop_stale {α : Type} (n_samples : Int) (n_iter : Nat) (queue : List α) : List α :=
  if n_iter > 0 ∧
      SDL_GetQueuedAudioSize queue > mul_size_t (to_size_t (2 * n_samples)) sizeof_float then
    []
  else queue

/-- Lines 288-290: `while (queued < n_samples*sizeof(float)) SDL_Delay(1);`.
Each delay lets the device queue one more chunk; `none` when the listed
chunks run out while the loop is still waiting. -/
def wait_audio {α : Type} (n_samples : Int) : List α → List (List α) → Option (List α)
  | q, [] =>
    if SDL_GetQueuedAudioSize q < mul_size_t (to_size_t n_samples) sizeof_float then none
    else some q
  | q, c :: cs =>
    if SDL_GetQueuedAudioSize q < mul_size_t (to_size_t n_samples) sizeof_float then
      wait_audio n_samples (q ++ c) cs
    else some q

/-- Line 298: `std::min((int) pcmf32_old.size(), std::max(0, n_samples_len - n_samples_new))`. -/
def samples_take (n_samples_len : Int) (old_size n_samples_new : Nat) : Nat :=
  (min (old_size : Int) (max 0 (n_samples_len - n_samples_new))).toNat

/-- Lines 292-310: build the window in `pcmf32` and copy it to `pcmf32_old`. -/
def build_window {α C : Type} [Inhabited α] (n_samples_len : Int) (st : LoopState α C) :
    LoopState α C :=
  let n_samples_new := SDL_GetQueuedAudioSize st.queue / sizeof_float
  let n_samples_take := samples_take n_samples_len st.pcmf32_old.length n_samples_new
  let v0 := vec_resize st.pcmf32 (n_samples_new + n_samples_take)
  let v1 := vec_fill v0 0 n_samples_take
    (fun i => st.pcmf32_old.getD (st.pcmf32_old.length - n_samples_take + i) default)
  let deq := SDL_DequeueAudio st.queue (n_samples_new * sizeof_float)
  let v2 := vec_fill v1 n_samples_take deq.1.length (fun j => deq.1.getD j default)
  { st with
    queue := deq.2
    pcmf32 := v2
    pcmf32_old := v2
    n_samples_new := n_samples_new
    n_samples_take := n_samples_take }

/-- Lines 367-373: `++n_iter`, then clear `pcmf32_old` when `n_iter % n_new_line == 0`
(remainder by zero is undefined). -/
def count_and_reset {α C : Type} (n_new_line : Int) (st : LoopState α C) :
    IterResult (LoopState α C) :=
  let n_iter := st.n_iter + 1
  if n_new_line = 0 then .undefined
  else if Int.tmod (n_iter : Int) n_new_line = 0 then
    .next { st with n_iter := n_iter, pcmf32_old := [] }
  else .next { st with n_iter := n_iter }

/-- One pass through the body of `while (is_running)` (lines 264-375).
Printing is left out; the segment getters only read the context. -/
def loop_iter {α C : Type} [Inhabited α] (sz : Sizes)
    (whisper_full : C → whisper_full_params → List α → Int × C)
    (wparams : whisper_full_params)
    (st : LoopState α C) (env : IterEnv α) : IterResult (LoopState α C) :=
  if env.quit then .exit 0
  else
    let q1 := drop_stale sz.n_samples st.n_iter (st.queue ++ env.captured)
    match wait_audio sz.n_samples q1 env.arrivals with
    | none => .waiting
    | some q2 =>
      let st1 := build_window sz.n_samples_len { st with queue := q2 }
      let r := whisper_full st1.ctx wparams st1.pcmf32
      if r.1 ≠ 0 then .exit 6
      else count_and_reset sz.n_new_line { st1 with ctx := r.2 }

/-- Successive passes through the loop body, one per listed environment. -/
def run {α C : Type} [Inhabited α] (sz : Sizes)
    (whisper_full : C → whisper_full_params → List α → Int × C)
    (wparams : whisper_full_params) :
    LoopState α C → List (IterEnv α) → IterResult (LoopState α C)
  | st, [] => .next st
  | st, e :: es =>
    match loop_iter sz whisper_full wparams st e with
    | .next st1 => run sz whisper_full wparams st1 es
    | r => r

/-- The state on entry to the loop: `pcmf32` holds 30 s of zeros, `pcmf32_old` is empty, `n_iter = 0`. -/
def init_state {α C : Type} [Inhabited α] (ctx : C) : LoopState α C :=
  { queue := []
    pcmf32 := List.replicate (30 * 16000) default
    pcmf32_old := []
    n_iter := 0
    ctx := ctx
    n_samples_new := 0
    n_samples_take := 0 }

/-- Spec side: the window `trailing_tail ++ new_samples`, the tail being the
last `samples_take` samples of the trailing buffer. -/
def spec_window {α : Type} (n_samples_len : Int) (old new : List α) : List α :=
  old.drop (old.length - samples_take n_samples_len old.length new.length) ++ new

/-- Sizes for `--step 1 --length 3`: 16 samples per step, 48 per window, `n_new_line = 2`. -/
def sizes_1_3 : Sizes := { n_samples := 16, n_samples_len := 48, n_new_line := 2 }

/-- Sizes for `--step 1 --length 2`: 16 samples per step, 32 per window, `n_new_line = 1`. -/
def sizes_1_2 : Sizes := { n_samples := 16, n_samples_len := 32, n_new_line := 1 }

/-- A `whisper_full` that succeeds and leaves the context as it is. -/
def whisper_full_ok {α C : Type} (ctx : C) (_ : whisper_full_params) (_ : List α) : Int × C :=
  (0, ctx)

/-- Modelled from the spec: `whisper_full` of `whisper.cpp` (not among the
sources), reduced to what it does with the carried token buffer, which is all
the context holds here.  The prompt takes the carried-context tokens only if
context carry-over is enabled, and the carried context afterwards is the tokens
generated for this window; `decode` stands for the compute backend. -/
def spec_whisper_full {α : Type} (decode : List Nat → List α → List Nat)
    (carried : List Nat) (p : whisper_full_params) (window : List α) : Int × List Nat :=
  let prompt_ctx := if p.no_context then [] else carried
  (0, decode prompt_ctx window)

/-- A backend that repeats the carried tokens and then emits one token, the window length. -/
def decode_echo {α : Type} (prompt_ctx : List Nat) (window : List α) : List Nat :=
  prompt_ctx ++ [window.length]

/-- An iteration environment: no quit event, 16 samples queued since the last dequeue. -/
def env_16 : IterEnv Nat := { quit := false, captured := List.range 16, arrivals := [] }

/-- An iteration environment: no quit event, 33 samples queued since the last dequeue. -/
def env_33 : IterEnv Nat := { quit := false, captured := List.range 33, arrivals := [] }

/-- The loop state after one iteration that dequeued the 16 samples of `env_16`
into an empty trailing buffer, with `n_new_line = 2`. -/
def after_one_16 : LoopState Nat Unit :=
  { queue := [], pcmf32 := List.range 16, pcmf32_old := List.range 16, n_iter := 1, ctx := (),
    n_samples_new := 16, n_samples_take := 0 }

/-- The loop state after a second such iteration, a reset point for `n_new_line = 2`. -/
def after_two_16 : LoopState Nat Unit :=
  { queue := [], pcmf32 := List.range 16 ++ List.range 16, pcmf32_old := [], n_iter := 2,
    ctx := (), n_samples_new := 16, n_samples_take := 16 }

/-- The context type of `spec_whisper_full` is the carried token buffer; the
loop state after one iteration with `env_16`, `n_new_line = 1` and carry-over enabled. -/
def after_one_kc : LoopState Nat (List Nat) :=
  { queue := [], pcmf32 := List.range 16, pcmf32_old := [], n_iter := 1, ctx := [16],
    n_samples_new := 16, n_samples_take := 0 }

/-- The loop state one iteration after `after_one_kc`. -/
def after_two_kc : LoopState Nat (List Nat) :=
  { queue := [], pcmf32 := List.range 16, pcmf32_old := [], n_iter := 2, ctx := [16, 16],
    n_samples_new := 16, n_samples_take := 0 }

/-- A value for `whisper_full_default_params(WHISPER_SAMPLING_GREEDY)`. -/
def wparams_dflt : whisper_full_params :=
  { n_threads := 4, offset_ms := 0, translate := false, no_context := false,
    print_special_tokens := false, print_progress := true, print_realtime := false,
    print_timestamps := true, language := "en" }

end Stream

namespace Main

/-! ## `main.cpp` -/

/-- The function `to_timestamp` of `main.cpp` (lines 16-29); `t` is in units of 10 ms. -/
def to_timestamp (t : Int) : String :=
  let msec := t * 10
  let hr := Int.tdiv msec (1000 * 60 * 60)
  let msec := msec - hr * (1000 * 60 * 60)
  let min := Int.tdiv msec (1000 * 60)
  let msec := msec - min * (1000 * 60)
  let sec := Int.tdiv msec 1000
  let msec := msec - sec * 1000
  snprintf 32 (fmt_0d 2 (to_int32 hr) ++ [':'] ++ fmt_0d 2 (to_int32 min) ++ [':'] ++
    fmt_0d 2 (to_int32 sec) ++ ['.'] ++ fmt_0d 3 (to_int32 msec))

/-- The `whisper_params` struct of `main.cpp`; `n_threads` defaults to a hardware-dependent value. -/
structure whisper_params where
  seed : Int := -1
  n_threads : Int
  offset_ms : Int := 0
  verbose : Bool := false
  translate : Bool := false
  output_txt : Bool := false
  output_vtt : Bool := false
  output_srt : Bool := false
  print_special_tokens : Bool := false
  no_timestamps : Bool := false
  language : String := "en"
  model : String := "models/ggml-base.en.bin"
  fname_inp : List String := []
deriving DecidableEq, Repr

/-- Lines 200-206 of `main.cpp`: the capability check; the second component
tells whether the warning was printed. The block has no `return` or `exit`. -/
def capability_check (is_multilingual : Int) (params : whisper_params) :
    whisper_params × Bool :=
  if is_multilingual = 0 then
    if params.language ≠ "en" ∨ params.translate = true then
      ({ params with language := "en", translate := false }, true)
    else (params, false)
  else (params, false)

end Main

namespace Emscripten

/-! ## `bindings/javascript/emscripten.cpp`

A `whisper_context *` is an `Option C`, with `none` for `nullptr`; the global
`g_contexts` is a list of such pointers, created with four null entries and
never resized. -/

/-- The global `std::vector<struct whisper_context *> g_contexts(4, nullptr)`. -/
def g_contexts {C : Type} : List (Option C) := List.replicate 4 none

/-- The `for` loop of `init` from index `i` on, with `n` slots left to visit. -/
def init_loop {C : Type} (whisper_init : String → Option C) (path_model : String)
    (g : List (Option C)) : Nat → Nat → Nat × List (Option C)
  | _, 0 => (0, g)
  | i, n + 1 =>
    if (g.getD i none).isNone then (i + 1, g.set i (whisper_init path_model))
    else init_loop whisper_init path_model g (i + 1) n

/-- The binding `init` (lines 11-20): the returned handle and the table afterwards. -/
def init {C : Type} (whisper_init : String → Option C) (path_model : String)
    (g : List (Option C)) : Nat × List (Option C) :=
  init_loop whisper_init path_model g 0 g.length

end Emscripten

namespace Stream

/-! ## `stream.cpp`: command line -/

/-- Outcome of `whisper_params_parse`: it returns `true` with the parameters
filled in, or calls `exit`, or runs into undefined behaviour (a value-taking
option at the end of `argv`, or `std::stoi` throwing). -/
inductive ParseResult where
  | ok (params : whisper_params)
  | exit (code : Int)
  | undefined
deriving DecidableEq, Repr

/-- What the body of the `for` loop of `whisper_params_parse` does with one
argument: update the parameters, or consume the next argument `argv[++i]` as
a value (the function gives the outcome for that value), or call `exit`. -/
inductive ArgAction where
  | set (params : whisper_params)
  | value (f : String → ParseResult)
  | exit (code : Int)

/-- The `if`/`else if` chain of `whisper_params_parse` (lines 60-96 of
`stream.cpp`) for the argument `arg`.  `stoi` is `std::stoi` (`none` when it
throws) and `whisper_lang_id` is the function of `whisper.h`. -/
def parse_arg (stoi : String → Option Int) (whisper_lang_id : String → Int)
    (arg : String) (params : whisper_params) : ArgAction :=
  if arg = "-s" ∨ arg = "--seed" then
    .value fun v => match stoi v with
      | none => .undefined
      | some n => .ok { params with seed := n }
  else if arg = "-t" ∨ arg = "--threads" then
    .value fun v => match stoi v with
      | none => .undefined
      | some n => .ok { params with n_threads := n }
  else if arg = "--step" then
    .value fun v => match stoi v with
      | none => .undefined
      | some n => .ok { params with step_ms := n }
  else if arg = "--length" then
    .value fun v => match stoi v with
      | none => .undefined
      | some n => .ok { params with length_ms := n }
  else if arg = "-v" ∨ arg = "--verbose" then .set { params with verbose := true }
  else if arg = "--translate" then .set { params with translate := true }
  else if arg = "-kc" ∨ arg = "--keep-context" then .set { params with no_context := false }
  else if arg = "-l" ∨ arg = "--language" then
    .value fun v =>
      if whisper_lang_id v = -1 then .exit 0 else .ok { params with language := v }
  else if arg = "-ps" ∨ arg = "--print_special" then
    .set { params with print_special_tokens := true }
  else if arg = "-nt" ∨ arg = "--no_timestamps" then .set { params with no_timestamps := true }
  else if arg = "-m" ∨ arg = "--model" then .value fun v => .ok { params with model := v }
  else if arg = "-f" ∨ arg = "--file" then .value fun v => .ok { params with fname_out := v }
  else if arg = "-h" ∨ arg = "--help" then .exit 0
  else .exit 0

/-- The function `whisper_params_parse` of `stream.cpp` (lines 56-100) on
`argv[1..]`: the loop over the arguments.  A value-taking option at the end of
`argv` reads the terminating null pointer, which is undefined. -/
def whisper_params_parse (stoi : String → Option Int) (whisper_lang_id : String → Int) :
    List String → whisper_params → ParseResult
  | [], params => .ok params
  | arg :: rest, params =>
    match parse_arg stoi whisper_lang_id arg params with
    | .set params1 => whisper_params_parse stoi whisper_lang_id rest params1
    | .exit code => .exit code
    | .value f =>
      match rest with
      | [] => .undefined
      | v :: rest2 =>
        match f v with
        | .ok params1 => whisper_params_parse stoi whisper_lang_id rest2 params1
        | r => r

/-- The parameters `main` hands to `whisper_full` for the arguments `args`:
the parse of line 194 from the default `whisper_params` (`hw` threads), the
capability check of lines 225-231 and the assignments of lines 314-323;
`none` when the parser does not return. -/
def main_wparams (stoi : String → Option Int) (whisper_lang_id : String → Int)
    (hw is_multilingual : Int) (dflt : whisper_full_params) (args : List String) :
    Option whisper_full_params :=
  match whisper_params_parse stoi whisper_lang_id args { n_threads := hw } with
  | .ok params => some (inference_params dflt (capability_check is_multilingual params).1)
  | _ => none

/-- Lines 343-359 of `stream.cpp`: what is printed for one segment. -/
def print_segment (params : whisper_params) (t0 t1 : Int) (text : String) : String :=
  if params.no_timestamps then text
  else "[" ++ to_timestamp t0 ++ " --> " ++ to_timestamp t1 ++ "]  " ++ text ++ "\n"

/-- Spec side: the options of the stream example that take a value. -/
def takes_value (arg : String) : Bool :=
  ["-s", "--seed", "-t", "--threads", "--step", "--length", "-l", "--language", "-m",
    "--model", "-f", "--file"].contains arg

/-- Spec side: `-kc` or `--keep-context` occurs in option position, that is,
not as the value of a preceding value-taking option. -/
def keep_context_given : List String → Bool
  | [] => false
  | arg :: rest =>
    if takes_value arg then
      match rest with
      | [] => false
      | _ :: rest2 => keep_context_given rest2
    else (arg == "-kc" || arg == "--keep-context") || keep_context_given rest

/-- What one argument may do to `no_context` and `no_timestamps`: an option
without value is not value-taking, clears `no_context` exactly when it is
`-kc`/`--keep-context`, and never clears `no_timestamps`; an option with a
value is value-taking and leaves both flags alone. -/
def ArgEffect (stoi : String → Option Int) (lid : String → Int) (arg : String)
    (p : whisper_params) : Prop :=
  (∀ p1, parse_arg stoi lid arg p = .set p1 →
    takes_value arg = false ∧
    p1.no_context = (p.no_context && !(arg == "-kc" || arg == "--keep-context")) ∧
    (p.no_timestamps = true → p1.no_timestamps = true)) ∧
  (∀ f v p1, parse_arg stoi lid arg p = .value f → f v = .ok p1 →
    takes_value arg = true ∧ p1.no_context = p.no_context ∧
    p1.no_timestamps = p.no_timestamps)

/-- A `std::stoi` for the examples: strings of decimal digits, nothing else. -/
def stoi_dec (s : String) : Option Int :=
  match s.data with
  | [] => none
  | cs =>
    if cs.all Char.isDigit then some (cs.foldl (fun n c => 10 * n + ((c.toNat - 48 : Nat) : Int)) 0)
    else none

/-- A `whisper_lang_id` for the examples: `en` and `de` are known. -/
def lang_id_demo (lang : String) : Int :=
  if lang = "en" then 0 else if lang = "de" then 2 else -1

end Stream

namespace Main

/-! ## `main.cpp`: WAV input and the file loop -/

/-- The value of `WHISPER_SAMPLE_RATE` (`whisper.h`). -/
def WHISPER_SAMPLE_RATE : Nat := 16000

/-- What `dr_wav` reports for an opened file: the header fields `main` reads
(`totalPCMFrameCount` is a 64-bit count), the interleaved 16-bit samples of
the data (`sample j` is the `j`-th) and the number of frames
`drwav_read_pcm_frames_s16` can deliver (the whole count, or fewer for a
file cut short). -/
structure Wav where
  channels : Nat
  sampleRate : Nat
  bitsPerSample : Nat
  totalPCMFrameCount : Nat
  sample : Nat → Int
  framesReadable : Nat

/-- Lines 179-181: `pcm16.resize(n*wav.channels)` and the read of up to `n` frames into it. -/
def read_pcm16 (n : Nat) (wav : Wav) : List Int :=
  let pcm16 := vec_resize ([] : List Int) (n * wav.channels)
  vec_fill pcm16 0 (min n wav.framesReadable * wav.channels) (fun j => wav.sample j)

/-- Lines 177-194: the frame count narrowed to `int` (`int n =
wav.totalPCMFrameCount`), the read of the 16-bit samples and the conversion to
mono float.  `none` when the program does not get through: a negative `n`
makes `resize` ask for more than `max_size` elements, which throws and is
not caught, and `n*wav.channels` of `2^31` or more overflows `int`.  Below
that the indices `2*i + 1` stay within `int`.  The `float` values are
rationals here: an `int16_t`, a sum of two of them, and their quotients by
`32768` and `65536` are all represented exactly in single precision. -/
def pcm_to_mono (wav : Wav) : Option (List ℚ) :=
  let n := to_int32 (wav.totalPCMFrameCount : Int)
  if n < 0 ∨ n * (wav.channels : Int) ≥ 2 ^ 31 then none
  else
    let pcm16 := read_pcm16 n.toNat wav
    let pcmf32 := vec_resize ([] : List ℚ) n.toNat
    if wav.channels = 1 then
      some (vec_fill pcmf32 0 n.toNat (fun i => ((pcm16.getD i 0 : Int) : ℚ) / 32768))
    else
      some (vec_fill pcmf32 0 n.toNat
        (fun i => ((pcm16.getD (2 * i) 0 + pcm16.getD (2 * i + 1) 0 : Int) : ℚ) / 65536))

/-- Lines 219-228 of `main.cpp`: the parameters handed to `whisper_full`,
starting from `whisper_full_default_params(WHISPER_SAMPLING_GREEDY)`. -/
def inference_params (dflt : Stream.whisper_full_params) (params : whisper_params) :
    Stream.whisper_full_params :=
  { dflt with
    print_realtime := true
    print_progress := false
    print_timestamps := !params.no_timestamps
    print_special_tokens := params.print_special_tokens
    translate := params.translate
    language := params.language
    n_threads := params.n_threads
    offset_ms := params.offset_ms }

/-- The outside world of `main`: which files `drwav_init_file` opens and with
what content, which output files can be opened for writing, and the library
calls `whisper_full`, `whisper_is_multilingual`, `whisper_full_default_params`. -/
structure MainEnv (C : Type) where
  open_wav : String → Option Wav
  can_write : String → Bool
  whisper_full : C → Stream.whisper_full_params → List ℚ → Int × C
  is_multilingual : C → Int
  dflt : Stream.whisper_full_params

/-- The variables of `main` that live across files, with the list of files
whose audio has been handed to `whisper_full` so far. -/
structure MainState (C : Type) where
  params : whisper_params
  ctx : C
  inferred : List String

/-- Outcome of the loop body for one file: go on, `return code`, or a crash
(see `pcm_to_mono`). -/
inductive FileResult (σ : Type) where
  | done (s : σ)
  | exit (code : Int) (s : σ)
  | crash (s : σ)

/-- How `main` ends: `return code`, or a crash; with the files handed to `whisper_full`. -/
inductive MainResult where
  | returned (code : Int) (inferred : List String)
  | crashed (inferred : List String)
deriving DecidableEq, Repr

/-- The body of the `for` loop over the input files (lines 150-324). -/
def process_file {C : Type} (env : MainEnv C) (st : MainState C) (fname_inp : String) :
    FileResult (MainState C) :=
  match env.open_wav fname_inp with
  | none => .exit 3 st
  | some wav =>
    if wav.channels ≠ 1 ∧ wav.channels ≠ 2 then .exit 4 st
    else if wav.sampleRate ≠ WHISPER_SAMPLE_RATE then .exit 5 st
    else if wav.bitsPerSample ≠ 16 then .exit 6 st
    else
      match pcm_to_mono wav with
      | none => .crash st
      | some pcmf32 =>
        let params := (capability_check (env.is_multilingual st.ctx) st.params).1
        let r := env.whisper_full st.ctx (inference_params env.dflt params) pcmf32
        let st1 : MainState C :=
          { params := params, ctx := r.2, inferred := st.inferred ++ [fname_inp] }
        if r.1 ≠ 0 then .exit 7 st1
        else if params.output_txt = true ∧ env.can_write (fname_inp ++ ".txt") = false then
          .exit 8 st1
        else if params.output_vtt = true ∧ env.can_write (fname_inp ++ ".vtt") = false then
          .exit 9 st1
        else if params.output_srt = true ∧ env.can_write (fname_inp ++ ".srt") = false then
          .exit 10 st1
        else .done st1

/-- The `for` loop over the input files and the final `return 0`. -/
def process_files {C : Type} (env : MainEnv C) : List String → MainState C → MainResult
  | [], st => .returned 0 st.inferred
  | f :: fs, st =>
    match process_file env st f with
    | .done st1 => process_files env fs st1
    | .exit code st1 => .returned code st1.inferred
    | .crash st1 => .crashed st1.inferred

/-- The function `main` of `main.cpp` after the argument parse (lines 139-330). -/
def main_run {C : Type} (env : MainEnv C) (whisper_init : String → C)
    (params : whisper_params) : MainResult :=
  if params.fname_inp.isEmpty then .returned 2 []
  else
    process_files env params.fname_inp
      { params := params, ctx := whisper_init params.model, inferred := [] }

/-- The files handed to `whisper_full` when the loop body is left. -/
def FileResult.inferred {C : Type} : FileResult (MainState C) → List String
  | .done s => s.inferred
  | .exit _ s => s.inferred
  | .crash s => s.inferred

/-- A two-frame stereo file with a valid header. -/
def wav_demo : Wav :=
  { channels := 2, sampleRate := 16000, bitsPerSample := 16, totalPCMFrameCount := 2,
    sample := fun j => if j < 2 then 32767 else -32768, framesReadable := 2 }

/-- A mono file with a valid header and `2^31` frames of silence. -/
def wav_huge : Wav :=
  { channels := 1, sampleRate := 16000, bitsPerSample := 16, totalPCMFrameCount := 2 ^ 31,
    sample := fun _ => 0, framesReadable := 2 ^ 31 }

/-- An outside world in which every file opens as `wav`, every output file can
be written, `whisper_full` returns `ret` and the model is not multilingual. -/
def env_demo (wav : Wav) (ret : Int) : MainEnv Unit :=
  { open_wav := fun _ => some wav
    can_write := fun _ => true
    whisper_full := fun c _ _ => (ret, c)
    is_multilingual := fun _ => 0
    dflt := Stream.wparams_dflt }

end Main

namespace Sampling

/-! ## Token sampling (`whisper.h` declares it, `whisper.cpp` defines it) -/

/-- Modelled from the spec: the left-to-right scan behind the arg-max, the
functions `whisper_sample_best` and `whisper_sample_timestamp` being only
declared in `whisper.h`.  `i` is the index of the next entry, `best` and `bv`
the index and value of the best entry so far; a later entry replaces it only
when strictly larger, so ties go to the lowest index. -/
def scan_best {β : Type} [LinearOrder β] : List β → Nat → Nat → β → Nat
  | [], _, best, _ => best
  | x :: xs, i, best, bv =>
    if bv < x then scan_best xs (i + 1) i x else scan_best xs (i + 1) best bv

/-- Modelled from the spec: `whisper_sample_best` of `whisper.cpp` (only
declared in `whisper.h`), the arg-max index over the full vocabulary. -/
def whisper_sample_best {β : Type} [LinearOrder β] : List β → Nat
  | [] => 0
  | x :: xs => scan_best xs 1 0 x

/-- Modelled from the spec: `whisper_sample_timestamp` of `whisper.cpp` (only
declared in `whisper.h`), the arg-max index restricted to the timestamp
tokens, the ids from `token_beg` on. -/
def whisper_sample_timestamp {β : Type} [LinearOrder β] (probs : List β) (token_beg : Nat) :
    Nat :=
  token_beg + whisper_sample_best (probs.drop token_beg)

end Sampling

namespace Emscripten

/-! ## `bindings/javascript/emscripten.cpp`: `free` and `full_default` -/

/-- The statement `--index` on a `size_t` of `w` bits: `0` wraps to `2^w - 1`. -/
def dec_size_t (w index : Nat) : Nat := (index + 2 ^ w - 1) % 2 ^ w

/-- The binding `free` (lines 22-29): the table afterwards and the pointers
handed to `whisper_free`. -/
def free {C : Type} (w : Nat) (g : List (Option C)) (index : Nat) :
    List (Option C) × List (Option C) :=
  let index := dec_size_t w index
  if index < g.length then (g.set index none, [g.getD index none]) else (g, [])

/-- Lines 42-51: the parameters `full_default` hands to `whisper_full`. -/
def full_default_params (dflt : Stream.whisper_full_params) : Stream.whisper_full_params :=
  { dflt with
    print_realtime := true
    print_progress := false
    print_timestamps := true
    print_special_tokens := false
    translate := false
    language := "en"
    n_threads := 4
    offset_ms := 0 }

/-- The binding `full_default` (lines 31-69): the returned `int`, the table
afterwards and the contexts `whisper_full` was called on.  `whisper_full`
gives its return value; what it does to the context behind the pointer does
not touch the table of pointers. -/
def full_default {C α : Type} (w : Nat)
    (whisper_full : C → Stream.whisper_full_params → List α → Int)
    (dflt : Stream.whisper_full_params) (g : List (Option C)) (index : Nat)
    (audio : List α) : Int × List (Option C) × List C :=
  let index := dec_size_t w index
  if index ≥ g.length then (-1, g, [])
  else
    match g.getD index none with
    | none => (-2, g, [])
    | some ctx => (whisper_full ctx (full_default_params dflt) audio, g, [ctx])

end Emscripten

namespace Stream

/-! ## `stream.cpp`: a record of the calls to `whisper_full` -/

/-- A `whisper_full` that behaves as `wf` and also records its calls: the
context is paired with the list of the audio windows of the calls made so far. -/
def logged {α C : Type} (wf : C → whisper_full_params → List α → Int × C) :
    C × List (List α) → whisper_full_params → List α → Int × (C × List (List α)) :=
  fun c p w => ((wf c.1 p w).1, ((wf c.1 p w).2, c.2 ++ [w]))

/-- The loop state `st` with the record `log` of earlier calls attached to its context. -/
def with_log {α C : Type} (st : LoopState α C) (log : List (List α)) :
    LoopState α (C × List (List α)) :=
  { queue := st.queue
    pcmf32 := st.pcmf32
    pcmf32_old := st.pcmf32_old
    n_iter := st.n_iter
    ctx := (st.ctx, log)
    n_samples_new := st.n_samples_new
    n_samples_take := st.n_samples_take }

end Stream

/-! # Theorems -/

theorem vec_fill_succ {α : Type} (v : List α) (off n : Nat) (src : Nat → α) :
    vec_fill v off (n + 1) src = (vec_fill v off n src).set (off + n) (src n) := by
  simp [vec_fill, List.range_succ, List.foldl_append]

theorem vec_fill_length {α : Type} (v : List α) (off n : Nat) (src : Nat → α) :
    (vec_fill v off n src).length = v.length := by
  induction n with
  | zero => simp [vec_fill]
  | succ n ih => rw [vec_fill_succ, List.length_set, ih]

theorem vec_fill_getElem? {α : Type} (v : List α) (off n : Nat) (src : Nat → α) (j : Nat) :
    (vec_fill v off n src)[j]? =
      if off ≤ j ∧ j < off + n ∧ j < v.length then some (src (j - off)) else v[j]? := by
  induction n with
  | zero =>
    have h0 : ¬ (off ≤ j ∧ j < off + 0 ∧ j < v.length) := by omega
    rw [if_neg h0]
    rfl
  | succ n ih =>
    rw [vec_fill_succ, List.getElem?_set, ih, vec_fill_length]
    by_cases h1 : off + n = j
    · subst h1
      by_cases h2 : off + n < v.length
      · simp [h2]
      · simp [h2]
        omega
    · simp only [h1, if_false]
      by_cases h3 : off ≤ j ∧ j < off + n ∧ j < v.length
      · have h4 : off ≤ j ∧ j < off + (n + 1) ∧ j < v.length := by omega
        rw [if_pos h3, if_pos h4]
      · have h4 : ¬ (off ≤ j ∧ j < off + (n + 1) ∧ j < v.length) := by omega
        rw [if_neg h3, if_neg h4]

theorem vec_resize_length {α : Type} [Inhabited α] (v : List α) (n : Nat) :
    (vec_resize v n).length = n := by
  simp [vec_resize]; omega

namespace Stream

theorem samples_take_le_old (n_samples_len : Int) (a b : Nat) :
    samples_take n_samples_len a b ≤ a := by
  unfold samples_take; omega

theorem samples_take_add_le (n_samples_len : Int) (a b : Nat) :
    ((samples_take n_samples_len a b + b : Nat) : Int) ≤ max n_samples_len b := by
  unfold samples_take; omega

theorem build_window_pcmf32 {α C : Type} [Inhabited α] (n_samples_len : Int)
    (st : LoopState α C) :
    (build_window n_samples_len st).pcmf32 =
      spec_window n_samples_len st.pcmf32_old st.queue := by
  have hk := samples_take_le_old n_samples_len st.pcmf32_old.length st.queue.length
  apply List.ext_getElem?
  intro j
  simp only [build_window, spec_window, SDL_GetQueuedAudioSize, SDL_DequeueAudio, sizeof_float,
    Nat.mul_div_cancel _ (by decide : 0 < 4), List.take_length, vec_fill_getElem?,
    vec_fill_length, vec_resize_length]
  set k := samples_take n_samples_len st.pcmf32_old.length st.queue.length with hkdef
  by_cases h1 : j < k
  · have : ¬ (k ≤ j ∧ j < k + st.queue.length ∧ j < st.queue.length + k) := by omega
    rw [if_neg this]
    have : 0 ≤ j ∧ j < 0 + k ∧ j < st.queue.length + k := by omega
    rw [if_pos this, List.getElem?_append_left (by simp; omega), List.getElem?_drop]
    simp [List.getD_eq_getElem?_getD]
    rw [List.getElem?_eq_getElem (by omega)]
    simp
  · by_cases h2 : j < k + st.queue.length
    · have : k ≤ j ∧ j < k + st.queue.length ∧ j < st.queue.length + k := by omega
      rw [if_pos this, List.getElem?_append_right (by simp; omega)]
      simp [List.getD_eq_getElem?_getD]
      have e : j - (st.pcmf32_old.length - (st.pcmf32_old.length - k)) = j - k := by omega
      rw [e, List.getElem?_eq_getElem (by omega)]
      simp
    · have : ¬ (k ≤ j ∧ j < k + st.queue.length ∧ j < st.queue.length + k) := by omega
      rw [if_neg this]
      have : ¬ (0 ≤ j ∧ j < 0 + k ∧ j < st.queue.length + k) := by omega
      rw [if_neg this]
      rw [List.getElem?_eq_none (by simp [vec_resize_length]; omega),
        List.getElem?_eq_none (by simp; omega)]

/-- The state after lines 292-310, in closed form. -/
theorem build_window_eq {α C : Type} [Inhabited α] (n_samples_len : Int)
    (st : LoopState α C) :
    build_window n_samples_len st =
      { queue := []
        pcmf32 := spec_window n_samples_len st.pcmf32_old st.queue
        pcmf32_old := spec_window n_samples_len st.pcmf32_old st.queue
        n_iter := st.n_iter
        ctx := st.ctx
        n_samples_new := st.queue.length
        n_samples_take := samples_take n_samples_len st.pcmf32_old.length st.queue.length } := by
  have h := build_window_pcmf32 n_samples_len st
  simp only [build_window] at h
  simp only [build_window, h]
  simp [SDL_GetQueuedAudioSize, SDL_DequeueAudio, sizeof_float]

/-- One pass of the loop body once the wait loop has ended with queue `q2`. -/
theorem loop_iter_eq {α C : Type} [Inhabited α] (sz : Sizes)
    (wf : C → whisper_full_params → List α → Int × C) (wp : whisper_full_params)
    (st : LoopState α C) (env : IterEnv α) (q2 : List α)
    (hq : env.quit = false)
    (hw : wait_audio sz.n_samples
      (drop_stale sz.n_samples st.n_iter (st.queue ++ env.captured)) env.arrivals = some q2) :
    loop_iter sz wf wp st env =
      if (wf st.ctx wp (spec_window sz.n_samples_len st.pcmf32_old q2)).1 ≠ 0 then .exit 6
      else count_and_reset sz.n_new_line
        { queue := []
          pcmf32 := spec_window sz.n_samples_len st.pcmf32_old q2
          pcmf32_old := spec_window sz.n_samples_len st.pcmf32_old q2
          n_iter := st.n_iter
          ctx := (wf st.ctx wp (spec_window sz.n_samples_len st.pcmf32_old q2)).2
          n_samples_new := q2.length
          n_samples_take := samples_take sz.n_samples_len st.pcmf32_old.length q2.length } := by
  simp only [loop_iter, hq, hw, build_window_eq]
  simp

/-- What a pass that reaches the next iteration has done. -/
theorem loop_iter_next_inv {α C : Type} [Inhabited α] (sz : Sizes)
    (wf : C → whisper_full_params → List α → Int × C) (wp : whisper_full_params)
    (st s : LoopState α C) (env : IterEnv α)
    (h : loop_iter sz wf wp st env = .next s) :
    ∃ q2 : List α,
      wait_audio sz.n_samples
        (drop_stale sz.n_samples st.n_iter (st.queue ++ env.captured)) env.arrivals = some q2 ∧
      sz.n_new_line ≠ 0 ∧
      s.pcmf32 = spec_window sz.n_samples_len st.pcmf32_old q2 ∧
      s.pcmf32_old = (if Int.tmod ((st.n_iter + 1 : Nat) : Int) sz.n_new_line = 0 then []
        else s.pcmf32) ∧
      s.n_iter = st.n_iter + 1 ∧
      s.ctx = (wf st.ctx wp s.pcmf32).2 ∧
      s.n_samples_new = q2.length := by
  by_cases hq : env.quit = true
  · simp [loop_iter, hq] at h
  · have hq2 : env.quit = false := by simpa using hq
    cases hw : wait_audio sz.n_samples
        (drop_stale sz.n_samples st.n_iter (st.queue ++ env.captured)) env.arrivals with
    | none => simp [loop_iter, hq2, hw] at h
    | some q2 =>
      rw [loop_iter_eq sz wf wp st env q2 hq2 hw] at h
      refine ⟨q2, rfl, ?_⟩
      by_cases hr : (wf st.ctx wp (spec_window sz.n_samples_len st.pcmf32_old q2)).1 ≠ 0
      · rw [if_pos hr] at h; cases h
      · rw [if_neg hr] at h
        unfold count_and_reset at h
        by_cases hz : sz.n_new_line = 0
        · simp [hz] at h
        · simp only [hz, if_false] at h
          refine ⟨hz, ?_⟩
          by_cases hm : Int.tmod ((st.n_iter + 1 : Nat) : Int) sz.n_new_line = 0
          · simp only [hm, if_true] at h
            injection h with h
            subst h
            exact ⟨rfl, (if_pos hm).symm, rfl, rfl, rfl⟩
          · simp only [hm, if_false] at h
            injection h with h
            subst h
            exact ⟨rfl, (if_neg hm).symm, rfl, rfl, rfl⟩

end Stream

namespace Stream

theorem run_cons_inv {α C : Type} [Inhabited α] (sz : Sizes)
    (wf : C → whisper_full_params → List α → Int × C) (wp : whisper_full_params)
    (st0 s : LoopState α C) (e : IterEnv α) (es : List (IterEnv α))
    (h : run sz wf wp st0 (e :: es) = .next s) :
    ∃ st1, loop_iter sz wf wp st0 e = .next st1 ∧ run sz wf wp st1 es = .next s := by
  unfold run at h
  cases hl : loop_iter sz wf wp st0 e with
  | next st1 => rw [hl] at h; exact ⟨st1, rfl, h⟩
  | exit c => rw [hl] at h; cases h
  | waiting => rw [hl] at h; cases h
  | undefined => rw [hl] at h; cases h

/-- A run over a non-empty list of environments ends with a pass of the loop
body, entered after `envs.length - 1` passes. -/
theorem run_last {α C : Type} [Inhabited α] (sz : Sizes)
    (wf : C → whisper_full_params → List α → Int × C) (wp : whisper_full_params) :
    ∀ (envs : List (IterEnv α)) (st0 s : LoopState α C), envs ≠ [] →
      run sz wf wp st0 envs = .next s →
      ∃ st e, loop_iter sz wf wp st e = .next s ∧ st.n_iter + 1 = st0.n_iter + envs.length := by
  intro envs
  induction envs with
  | nil => intro st0 s hne; exact absurd rfl hne
  | cons e es ih =>
    intro st0 s _ h
    obtain ⟨st1, h1, h2⟩ := run_cons_inv sz wf wp st0 s e es h
    cases es with
    | nil =>
      have : s = st1 := by
        unfold run at h2
        injection h2 with h2
        exact h2.symm
      subst this
      exact ⟨st0, e, h1, by simp⟩
    | cons e2 es2 =>
      obtain ⟨st, e3, h3, h4⟩ := ih st1 s (by simp) h2
      obtain ⟨_, _, _, _, _, hn, _⟩ := loop_iter_next_inv sz wf wp st0 st1 e h1
      refine ⟨st, e3, h3, ?_⟩
      rw [h4, hn]
      simp only [List.length_cons]
      omega

theorem spec_window_length {α : Type} (n_samples_len : Int) (old new : List α) :
    (spec_window n_samples_len old new).length =
      samples_take n_samples_len old.length new.length + new.length := by
  have hk := samples_take_le_old n_samples_len old.length new.length
  simp only [spec_window, List.length_append, List.length_drop]
  omega

/-- The trailing buffer after a pass is no longer than the larger of `n_samples_len` and the
number of samples dequeued in that pass. -/
theorem loop_iter_old_bound {α C : Type} [Inhabited α] (sz : Sizes)
    (wf : C → whisper_full_params → List α → Int × C) (wp : whisper_full_params)
    (st s : LoopState α C) (env : IterEnv α)
    (h : loop_iter sz wf wp st env = .next s) :
    (s.pcmf32_old.length : Int) ≤ max sz.n_samples_len s.n_samples_new := by
  obtain ⟨q2, _, _, hp, ho, _, _, hn⟩ := loop_iter_next_inv sz wf wp st s env h
  have hb := samples_take_add_le sz.n_samples_len st.pcmf32_old.length q2.length
  have hl := spec_window_length sz.n_samples_len st.pcmf32_old q2
  rw [ho, hn]
  split
  · simp only [List.length_nil]
    omega
  · rw [hp, hl]
    exact hb

/-- C1: in every iteration that reaches line 292 (no quit event, the wait loop
left with the queue `new`), the window is the last
`k = min(|old|, max(0, n_samples_len - n_samples_new))` samples of the trailing
buffer, in their order, followed by all `n_samples_new = |new|` newly queued
samples, and it is `old ++ new` when `|old| + n_samples_new <= n_samples_len`;
lines 292-310 leave it in `pcmf32` and in `pcmf32_old`; `whisper_full` is
called exactly once, on the context and that window, and the iteration goes on
from its result with `pcmf32_old` set to that window. -/
theorem C1_window_passed_to_whisper_full {α C : Type} [Inhabited α] (sz : Sizes)
    (wf : C → whisper_full_params → List α → Int × C) (wp : whisper_full_params)
    (st : LoopState α C) (log : List (List α)) (env : IterEnv α) (new : List α)
    (hq : env.quit = false)
    (hw : wait_audio sz.n_samples
      (drop_stale sz.n_samples st.n_iter (st.queue ++ env.captured)) env.arrivals = some new) :
    let old := st.pcmf32_old
    let k := (min (old.length : Int) (max 0 (sz.n_samples_len - new.length))).toNat
    let window := old.drop (old.length - k) ++ new
    k ≤ old.length ∧ (old.drop (old.length - k)).length = k ∧
      ((old.length : Int) + new.length ≤ sz.n_samples_len → window = old ++ new) ∧
      (build_window sz.n_samples_len { st with queue := new }).pcmf32 = window ∧
      (build_window sz.n_samples_len { st with queue := new }).pcmf32_old = window ∧
      loop_iter sz wf wp st env =
        (if (wf st.ctx wp window).1 ≠ 0 then .exit 6
        else count_and_reset sz.n_new_line
          { queue := [], pcmf32 := window, pcmf32_old := window, n_iter := st.n_iter,
            ctx := (wf st.ctx wp window).2, n_samples_new := new.length,
            n_samples_take := k }) ∧
      loop_iter sz (logged wf) wp (with_log st log) env =
        (if (wf st.ctx wp window).1 ≠ 0 then .exit 6
        else count_and_reset sz.n_new_line
          { queue := [], pcmf32 := window, pcmf32_old := window, n_iter := st.n_iter,
            ctx := ((wf st.ctx wp window).2, log ++ [window]), n_samples_new := new.length,
            n_samples_take := k }) := by
  intro old k window
  have hk : k ≤ old.length := samples_take_le_old sz.n_samples_len old.length new.length
  have hb := build_window_eq sz.n_samples_len { st with queue := new }
  refine ⟨hk, ?_, ?_, by rw [hb]; rfl, by rw [hb]; rfl,
    loop_iter_eq sz wf wp st env new hq hw, ?_⟩
  · rw [List.length_drop]; omega
  · intro hle
    have hk2 : k = old.length := by
      show (min (old.length : Int) (max 0 (sz.n_samples_len - new.length))).toNat = old.length
      omega
    show old.drop (old.length - k) ++ new = old ++ new
    rw [hk2]
    simp
  · exact loop_iter_eq sz (logged wf) wp (with_log st log) env new hq hw

/-- C1, witness: the second iteration with `--step 1 --length 3`, 16 samples
in the trailing buffer and 16 newly queued: one call, on the 32 samples. -/
theorem C1_window_passed_to_whisper_full_witness :
    loop_iter sizes_1_3 (logged whisper_full_ok) wparams_dflt (with_log after_one_16 []) env_16 =
      .next
        { queue := [], pcmf32 := List.range 16 ++ List.range 16, pcmf32_old := [], n_iter := 2,
          ctx := ((), [List.range 16 ++ List.range 16]), n_samples_new := 16,
          n_samples_take := 16 } :=
  (C1_window_passed_to_whisper_full sizes_1_3 whisper_full_ok wparams_dflt after_one_16 []
    env_16 (List.range 16) rfl (by decide)).2.2.2.2.2.2.trans (by decide)

/-- C2, counterexample: with `--step 1 --length 3` and 49 samples queued when
the first iteration starts, the trailing buffer holds 49 samples after the
iteration, more than `n_samples_len = 48`. -/
theorem C2_counterexample_long_first_window :
    ∃ s : LoopState Nat Unit,
      loop_iter sizes_1_3 whisper_full_ok wparams_dflt (init_state ())
        { quit := false, captured := List.range 49, arrivals := [] } = .next s ∧
      ¬ ((s.pcmf32_old.length : Int) ≤ sizes_1_3.n_samples_len) := by
  refine ⟨{ queue := [], pcmf32 := List.range 49, pcmf32_old := List.range 49, n_iter := 1,
            ctx := (), n_samples_new := 49, n_samples_take := 0 }, ?_, by decide⟩
  rw [loop_iter_eq _ _ _ _ _ (List.range 49) rfl (by decide)]
  decide

/-- C2, amended: after every iteration of every run, the trailing buffer holds
at most `max(n_samples_len, n_samples_new)` samples, `n_samples_new` being the
number of samples dequeued in that iteration; so at most `n_samples_len`
whenever no more than that were newly queued. -/
theorem C2_trailing_buffer_bound {α C : Type} [Inhabited α] (sz : Sizes)
    (wf : C → whisper_full_params → List α → Int × C) (wp : whisper_full_params)
    (st0 s : LoopState α C) (envs : List (IterEnv α)) (hne : envs ≠ [])
    (h : run sz wf wp st0 envs = .next s) :
    (s.pcmf32_old.length : Int) ≤ max sz.n_samples_len s.n_samples_new ∧
      ((s.n_samples_new : Int) ≤ sz.n_samples_len →
        (s.pcmf32_old.length : Int) ≤ sz.n_samples_len) := by
  obtain ⟨st, e, hl, _⟩ := run_last sz wf wp envs st0 s hne h
  have hb := loop_iter_old_bound sz wf wp st s e hl
  exact ⟨hb, fun hle => by omega⟩

end Stream

namespace Stream

/-- C2, witness: one iteration with `--step 1 --length 3` and 16 queued samples. -/
theorem C2_trailing_buffer_bound_witness :
    ((after_one_16.pcmf32_old.length : Int) ≤
        max sizes_1_3.n_samples_len after_one_16.n_samples_new) ∧
      (((after_one_16.n_samples_new : Int) ≤ sizes_1_3.n_samples_len →
        (after_one_16.pcmf32_old.length : Int) ≤ sizes_1_3.n_samples_len)) :=
  C2_trailing_buffer_bound sizes_1_3 whisper_full_ok wparams_dflt (init_state ()) after_one_16
    [env_16] (by decide)
    (by rw [run, loop_iter_eq _ _ _ _ _ (List.range 16) rfl (by decide)]; decide)

/-- C3, counterexample: in the first iteration (`n_iter = 0`) with `n_samples = 16`,
a queue of 33 samples (132 bytes, more than `2*16*4 = 128`) is not cleared, and
the window handed to `whisper_full` is those 33 samples. -/
theorem C3_counterexample_first_iteration :
    SDL_GetQueuedAudioSize ((init_state () : LoopState Nat Unit).queue ++ env_33.captured) >
        mul_size_t (to_size_t (2 * sizes_1_3.n_samples)) sizeof_float ∧
      drop_stale sizes_1_3.n_samples (init_state () : LoopState Nat Unit).n_iter
        ((init_state () : LoopState Nat Unit).queue ++ env_33.captured) = List.range 33 ∧
      ∃ s : LoopState Nat Unit,
        loop_iter sizes_1_3 whisper_full_ok wparams_dflt (init_state ()) env_33 = .next s ∧
        s.pcmf32 = List.range 33 := by
  refine ⟨by decide, by decide,
    { queue := [], pcmf32 := List.range 33, pcmf32_old := List.range 33, n_iter := 1,
      ctx := (), n_samples_new := 33, n_samples_take := 0 }, ?_, rfl⟩
  rw [loop_iter_eq _ _ _ _ _ (List.range 33) rfl (by decide)]
  decide

/-- C3, amended: in every iteration after the first (`n_iter > 0`), if the
queue holds more than `2*n_samples*sizeof(float)` bytes when the iteration
starts, it is cleared before the window is built, and the iteration proceeds
exactly as from an empty queue; in the first iteration (`n_iter = 0`) the
queue is never cleared. -/
theorem C3_backpressure_after_first {α C : Type} [Inhabited α] (sz : Sizes)
    (wf : C → whisper_full_params → List α → Int × C) (wp : whisper_full_params)
    (st : LoopState α C) (env : IterEnv α) (hi : 0 < st.n_iter)
    (hb : SDL_GetQueuedAudioSize (st.queue ++ env.captured) >
      mul_size_t (to_size_t (2 * sz.n_samples)) sizeof_float) :
    drop_stale sz.n_samples st.n_iter (st.queue ++ env.captured) = [] ∧
      loop_iter sz wf wp st env =
        loop_iter sz wf wp { st with queue := [] } { env with captured := [] } ∧
      (∀ q : List α, drop_stale sz.n_samples 0 q = q) := by
  have hd : drop_stale sz.n_samples st.n_iter (st.queue ++ env.captured) = [] := by
    unfold drop_stale
    rw [if_pos ⟨hi, hb⟩]
  have hd2 : drop_stale sz.n_samples st.n_iter ([] : List α) = [] := by
    unfold drop_stale
    split <;> rfl
  refine ⟨hd, ?_, ?_⟩
  · simp only [loop_iter, hd, List.append_nil, hd2, build_window_eq]
  · intro q
    simp [drop_stale]

/-- C3, witness: the second iteration (`n_iter = 1`) with 33 samples queued and `n_samples = 16`. -/
theorem C3_backpressure_after_first_witness :
    drop_stale sizes_1_3.n_samples after_one_16.n_iter
        (after_one_16.queue ++ env_33.captured) = [] ∧
      loop_iter sizes_1_3 whisper_full_ok wparams_dflt after_one_16 env_33 =
        loop_iter sizes_1_3 whisper_full_ok wparams_dflt
          { after_one_16 with queue := [] } { env_33 with captured := [] } ∧
      (∀ q : List Nat, drop_stale sizes_1_3.n_samples 0 q = q) :=
  C3_backpressure_after_first sizes_1_3 whisper_full_ok wparams_dflt after_one_16 env_33
    (by decide) (by decide)

/-- C4: with `n_new_line = length_ms / step_ms - 1 >= 1`, after the `k`-th
completed iteration (`k >= 1`) of a run started with `n_iter = 0`, `n_iter = k`
and the trailing buffer is empty if `n_new_line` divides `k` and is otherwise
the window just processed; for `step_ms = 3000`, `length_ms = 10000`,
`n_new_line = 2`. -/
theorem C4_reset_cadence {α C : Type} [Inhabited α] (params : whisper_params) (sz : Sizes)
    (wf : C → whisper_full_params → List α → Int × C) (wp : whisper_full_params)
    (st0 s : LoopState α C) (envs : List (IterEnv α))
    (hn : sz.n_new_line = n_new_line params) (h1 : 1 ≤ n_new_line params)
    (h0 : st0.n_iter = 0) (hk : 1 ≤ envs.length)
    (h : run sz wf wp st0 envs = .next s) :
    s.n_iter = envs.length ∧
      s.pcmf32_old =
        (if envs.length % (n_new_line params).toNat = 0 then [] else s.pcmf32) ∧
      (∀ p : whisper_params, p.step_ms = 3000 → p.length_ms = 10000 → n_new_line p = 2) := by
  have hne : envs ≠ [] := by
    intro he
    rw [he] at hk
    simp at hk
  obtain ⟨st, e, hl, hc⟩ := run_last sz wf wp envs st0 s hne h
  obtain ⟨_, _, _, _, ho, hi, _⟩ := loop_iter_next_inv sz wf wp st s e hl
  have hlen : st.n_iter + 1 = envs.length := by omega
  have hcast : n_new_line params = (((n_new_line params).toNat : Nat) : Int) :=
    (Int.toNat_of_nonneg (by omega)).symm
  have hiff : Int.tmod ((envs.length : Nat) : Int) (n_new_line params) = 0 ↔
      envs.length % (n_new_line params).toNat = 0 := by
    rw [← Int.dvd_iff_tmod_eq_zero, ← Nat.dvd_iff_mod_eq_zero]
    conv_lhs => rw [hcast]
    exact Int.natCast_dvd_natCast
  refine ⟨by omega, ?_, ?_⟩
  · rw [ho, hlen, hn]
    by_cases hd : envs.length % (n_new_line params).toNat = 0
    · rw [if_pos hd, if_pos (hiff.mpr hd)]
    · rw [if_neg hd, if_neg (fun hz => hd (hiff.mp hz))]
  · intro p hs hl2
    simp only [n_new_line, hs, hl2]
    decide

/-- C4, witness: two iterations with `--step 1 --length 3` (`n_new_line = 2`), 16 samples each. -/
theorem C4_reset_cadence_witness :
    after_two_16.n_iter = [env_16, env_16].length ∧
      after_two_16.pcmf32_old =
        (if [env_16, env_16].length %
            (n_new_line { n_threads := 4, step_ms := 1, length_ms := 3 }).toNat = 0 then []
          else after_two_16.pcmf32) ∧
      (∀ p : whisper_params, p.step_ms = 3000 → p.length_ms = 10000 → n_new_line p = 2) :=
  C4_reset_cadence { n_threads := 4, step_ms := 1, length_ms := 3 } sizes_1_3
    whisper_full_ok wparams_dflt (init_state ()) after_two_16 [env_16, env_16]
    (by decide) (by decide) rfl (by decide)
    (by rw [run, loop_iter_eq _ _ _ _ _ (List.range 16) rfl (by decide)]; decide)

/-- C5, counterexample: with `n_new_line = 1` every iteration is a reset point.
With carry-over enabled (`no_context = false`) the first iteration clears the
trailing buffer but leaves the carried token `[16]` in the context, and the
`whisper_full` call of the next iteration uses it: its result repeats it. -/
theorem C5_counterexample_context_survives_reset :
    (inference_params wparams_dflt { n_threads := 4, no_context := false }).no_context = false ∧
      sizes_1_2.n_new_line ∣ ((after_one_kc.n_iter : Nat) : Int) ∧
      loop_iter sizes_1_2 (spec_whisper_full decode_echo)
        (inference_params wparams_dflt { n_threads := 4, no_context := false })
        (init_state []) env_16 = .next after_one_kc ∧
      after_one_kc.pcmf32_old = [] ∧ after_one_kc.ctx ≠ [] ∧
      loop_iter sizes_1_2 (spec_whisper_full decode_echo)
        (inference_params wparams_dflt { n_threads := 4, no_context := false })
        after_one_kc env_16 = .next after_two_kc ∧
      after_two_kc.ctx = after_one_kc.ctx ++ [16] := by
  refine ⟨rfl, by decide, ?_, rfl, by decide, by decide, rfl⟩
  rw [loop_iter_eq _ _ _ _ _ (List.range 16) rfl (by decide)]
  decide

/-- C5, amended: at every reset point (an iteration whose count `n_iter + 1`
is a multiple of `n_new_line`) the trailing audio buffer is cleared and the
session context is left exactly as `whisper_full` returned it; the
`whisper_full` call of the next iteration receives that context and the same
parameters, `no_context` included. -/
theorem C5_reset_clears_audio_only {α C : Type} [Inhabited α] (sz : Sizes)
    (wf : C → whisper_full_params → List α → Int × C) (wp : whisper_full_params)
    (st s s2 : LoopState α C) (env env2 : IterEnv α)
    (h : loop_iter sz wf wp st env = .next s)
    (hr : sz.n_new_line ∣ ((st.n_iter + 1 : Nat) : Int))
    (h2 : loop_iter sz wf wp s env2 = .next s2) :
    s.pcmf32_old = [] ∧ s.ctx = (wf st.ctx wp s.pcmf32).2 ∧
      s2.ctx = (wf (wf st.ctx wp s.pcmf32).2 wp s2.pcmf32).2 := by
  obtain ⟨_, _, _, _, ho, _, hc, _⟩ := loop_iter_next_inv sz wf wp st s env h
  obtain ⟨_, _, _, _, _, _, hc2, _⟩ := loop_iter_next_inv sz wf wp s s2 env2 h2
  refine ⟨?_, hc, ?_⟩
  · rw [ho, if_pos (Int.tmod_eq_zero_of_dvd hr)]
  · rw [hc2, hc]

/-- C5, witness: the two iterations of the counterexample run. -/
theorem C5_reset_clears_audio_only_witness :
    after_one_kc.pcmf32_old = [] ∧
      after_one_kc.ctx = (spec_whisper_full decode_echo (init_state [] : LoopState Nat (List Nat)).ctx
        (inference_params wparams_dflt { n_threads := 4, no_context := false })
        after_one_kc.pcmf32).2 ∧
      after_two_kc.ctx = (spec_whisper_full decode_echo
        (spec_whisper_full decode_echo (init_state [] : LoopState Nat (List Nat)).ctx
          (inference_params wparams_dflt { n_threads := 4, no_context := false })
          after_one_kc.pcmf32).2
        (inference_params wparams_dflt { n_threads := 4, no_context := false })
        after_two_kc.pcmf32).2 :=
  C5_reset_clears_audio_only sizes_1_2 (spec_whisper_full decode_echo)
    (inference_params wparams_dflt { n_threads := 4, no_context := false })
    (init_state []) after_one_kc after_two_kc env_16 env_16
    (by rw [loop_iter_eq _ _ _ _ _ (List.range 16) rfl (by decide)]; decide)
    (by decide) (by decide)

end Stream

/-! ## Capability check, session table, timestamps -/

set_option maxRecDepth 100000 in
theorem fmt_0d_two_digits (n : Nat) (h : n < 100) : fmt_0d 2 (n : Int) = field2 n := by
  have key : ∀ m : Fin 100, fmt_0d 2 ((m.val : Nat) : Int) = field2 m.val := by decide
  exact key ⟨n, h⟩

set_option maxRecDepth 100000 in
theorem fmt_0d_three_digits (n : Nat) (h : n < 1000) : fmt_0d 3 (n : Int) = field3 n := by
  have key : ∀ m : Fin 1000, fmt_0d 3 ((m.val : Nat) : Int) = field3 m.val := by decide
  exact key ⟨n, h⟩

theorem to_int32_small (x : Int) (h0 : 0 ≤ x) (h1 : x < 1000) : to_int32 x = x := by
  unfold to_int32
  norm_num
  omega

/-- C6: after the capability check of `main.cpp` and of `stream.cpp`, a model
that is not multilingual leaves `language = "en"` and `translate = false` (the
other fields as they were), a multilingual model leaves the parameters
unchanged; the check returns parameters in every case, it has no exit. -/
theorem C6_capability_override (m : Int) (pm : Main.whisper_params)
    (ps : Stream.whisper_params) :
    (m = 0 →
      (Main.capability_check m pm).1 = { pm with language := "en", translate := false } ∧
      (Main.capability_check m pm).1.language = "en" ∧
      (Main.capability_check m pm).1.translate = false ∧
      (Stream.capability_check m ps).1 = { ps with language := "en", translate := false } ∧
      (Stream.capability_check m ps).1.language = "en" ∧
      (Stream.capability_check m ps).1.translate = false) ∧
    (m ≠ 0 →
      (Main.capability_check m pm).1 = pm ∧ (Stream.capability_check m ps).1 = ps) := by
  constructor
  · intro hm
    have hM : (Main.capability_check m pm).1 =
        { pm with language := "en", translate := false } := by
      unfold Main.capability_check
      rw [if_pos hm]
      by_cases hc : pm.language ≠ "en" ∨ pm.translate = true
      · rw [if_pos hc]
      · rw [if_neg hc]
        have hl : pm.language = "en" := by
          by_contra hne
          exact hc (Or.inl hne)
        have ht : pm.translate = false := by
          cases htr : pm.translate
          · rfl
          · exact absurd (Or.inr htr) hc
        cases pm
        simp_all
    have hS : (Stream.capability_check m ps).1 =
        { ps with language := "en", translate := false } := by
      unfold Stream.capability_check
      rw [if_pos hm]
      by_cases hc : ps.language ≠ "en" ∨ ps.translate = true
      · rw [if_pos hc]
      · rw [if_neg hc]
        have hl : ps.language = "en" := by
          by_contra hne
          exact hc (Or.inl hne)
        have ht : ps.translate = false := by
          cases htr : ps.translate
          · rfl
          · exact absurd (Or.inr htr) hc
        cases ps
        simp_all
    refine ⟨hM, ?_, ?_, hS, ?_, ?_⟩
    · rw [hM]
    · rw [hM]
    · rw [hS]
    · rw [hS]
  · intro hm
    constructor
    · unfold Main.capability_check
      rw [if_neg hm]
    · unfold Stream.capability_check
      rw [if_neg hm]

namespace Emscripten

theorem length_four {C : Type} (g : List (Option C)) (hg : g.length = 4) :
    ∃ a b c d, g = [a, b, c, d] := by
  match g, hg with
  | [a, b, c, d], _ => exact ⟨a, b, c, d, rfl⟩

/-- C7: on the 4-slot table, `init` returns `i + 1` for the smallest index `i`
of an empty slot, stores the result of `whisper_init` there and leaves the
other slots as they were; it returns 0 exactly when no slot is empty, and then
the table is unchanged; the handle is at most 4 and the table keeps its 4
slots, so at most 4 sessions are live. -/
theorem C7_init_first_free_slot {C : Type} (whisper_init : String → Option C)
    (path_model : String) (g : List (Option C)) (hg : g.length = 4) :
    (∀ i, i < 4 → g.getD i none = none → (∀ j, j < i → g.getD j none ≠ none) →
      init whisper_init path_model g = (i + 1, g.set i (whisper_init path_model)) ∧
      ∀ j, j ≠ i → (init whisper_init path_model g).2.getD j none = g.getD j none) ∧
    ((init whisper_init path_model g).1 = 0 ↔ ∀ i, i < 4 → g.getD i none ≠ none) ∧
    ((init whisper_init path_model g).1 = 0 → (init whisper_init path_model g).2 = g) ∧
    (init whisper_init path_model g).1 ≤ 4 ∧
    (init whisper_init path_model g).2.length = 4 ∧
    ((init whisper_init path_model g).2.filter Option.isSome).length ≤ 4 := by
  obtain ⟨a, b, c, d, rfl⟩ := length_four g hg
  have hlen : (init whisper_init path_model [a, b, c, d]).2.length = 4 := by
    cases a <;> cases b <;> cases c <;> cases d <;> simp [init, init_loop]
  refine ⟨?_, ?_, ?_, ?_, hlen, ?_⟩
  · intro i hi hnone hprev
    have h0 := hprev 0
    have h1 := hprev 1
    have h2 := hprev 2
    interval_cases i
    · cases a <;> simp_all [init, init_loop]
      intro j hj
      cases j with
      | zero => exact absurd rfl hj
      | succ j => simp
    · cases a <;> cases b <;> simp_all [init, init_loop]
      intro j hj
      match j, hj with
      | 0, _ => simp
      | 1, hj => exact absurd rfl hj
      | j + 2, _ => simp
    · cases a <;> cases b <;> cases c <;> simp_all [init, init_loop]
      intro j hj
      match j, hj with
      | 0, _ => simp
      | 1, _ => simp
      | 2, hj => exact absurd rfl hj
      | j + 3, _ => simp
    · cases a <;> cases b <;> cases c <;> cases d <;> simp_all [init, init_loop]
      intro j hj
      match j, hj with
      | 0, _ => simp
      | 1, _ => simp
      | 2, _ => simp
      | 3, hj => exact absurd rfl hj
      | j + 4, _ => simp
  · constructor
    · intro hz i hi
      interval_cases i <;>
        (cases a <;> cases b <;> cases c <;> cases d <;> simp_all [init, init_loop])
    · intro hall
      have h0 := hall 0 (by decide)
      have h1 := hall 1 (by decide)
      have h2 := hall 2 (by decide)
      have h3 := hall 3 (by decide)
      cases a <;> cases b <;> cases c <;> cases d <;> simp_all [init, init_loop]
  · cases a <;> cases b <;> cases c <;> cases d <;> simp [init, init_loop]
  · cases a <;> cases b <;> cases c <;> cases d <;> simp [init, init_loop]
  · calc ((init whisper_init path_model [a, b, c, d]).2.filter Option.isSome).length
        ≤ (init whisper_init path_model [a, b, c, d]).2.length := List.length_filter_le _ _
      _ = 4 := hlen

/-- C7, witness: `init` on the initial table of four null pointers. -/
theorem C7_init_first_free_slot_witness :
    init (fun _ => some 7) "ggml-base.en.bin" (g_contexts : List (Option Nat)) =
      (1, [some 7, none, none, none]) :=
  ((C7_init_first_free_slot (fun _ => some 7) "ggml-base.en.bin"
    (g_contexts : List (Option Nat)) rfl).1 0 (by decide) rfl
    (fun j hj => absurd hj (Nat.not_lt_zero j))).1

end Emscripten

namespace Main

/-- C9: for `0 <= t < 36000000`, `to_timestamp` of `main.cpp` is the
12-character string `HH:MM:SS.mmm` of zero-padded decimal fields with
`MM < 60`, `SS < 60`, `mmm < 1000` and
`3600000*HH + 60000*MM + 1000*SS + mmm = 10*t`. -/
theorem C9_main_timestamp_format (t : Int) (h0 : 0 ≤ t) (h1 : t < 36000000) :
    ∃ HH MM SS mmm : Nat, HH < 100 ∧ MM < 60 ∧ SS < 60 ∧ mmm < 1000 ∧
      (3600000 * (HH : Int) + 60000 * MM + 1000 * SS + mmm = 10 * t) ∧
      to_timestamp t =
        String.mk (field2 HH ++ [':'] ++ field2 MM ++ [':'] ++ field2 SS ++ ['.'] ++
          field3 mmm) ∧
      (to_timestamp t).length = 12 := by
  obtain ⟨n, rfl⟩ := Int.eq_ofNat_of_zero_le h0
  have hn : n < 36000000 := by omega
  have e1 : Int.tdiv ((n : Int) * 10) (1000 * 60 * 60) = ((n * 10 / 3600000 : Nat) : Int) := by
    rw [Int.tdiv_eq_ediv (by omega) (by norm_num)]
    norm_num
  have e2 : (n : Int) * 10 - ((n * 10 / 3600000 : Nat) : Int) * (1000 * 60 * 60) =
      ((n * 10 % 3600000 : Nat) : Int) := by
    omega
  have e3 : Int.tdiv ((n * 10 % 3600000 : Nat) : Int) (1000 * 60) =
      ((n * 10 % 3600000 / 60000 : Nat) : Int) := by
    rw [Int.tdiv_eq_ediv (by omega) (by norm_num)]
    norm_num
  have e4 : ((n * 10 % 3600000 : Nat) : Int) -
      ((n * 10 % 3600000 / 60000 : Nat) : Int) * (1000 * 60) =
      ((n * 10 % 60000 : Nat) : Int) := by
    omega
  have e5 : Int.tdiv ((n * 10 % 60000 : Nat) : Int) 1000 =
      ((n * 10 % 60000 / 1000 : Nat) : Int) := by
    rw [Int.tdiv_eq_ediv (by omega) (by norm_num)]
    norm_num
  have e6 : ((n * 10 % 60000 : Nat) : Int) - ((n * 10 % 60000 / 1000 : Nat) : Int) * 1000 =
      ((n * 10 % 1000 : Nat) : Int) := by
    omega
  have hHH : n * 10 / 3600000 < 100 := by omega
  have hMM : n * 10 % 3600000 / 60000 < 60 := by omega
  have hSS : n * 10 % 60000 / 1000 < 60 := by omega
  have hmm : n * 10 % 1000 < 1000 := by omega
  have hts : to_timestamp (n : Int) =
      String.mk (field2 (n * 10 / 3600000) ++ [':'] ++ field2 (n * 10 % 3600000 / 60000) ++
        [':'] ++ field2 (n * 10 % 60000 / 1000) ++ ['.'] ++ field3 (n * 10 % 1000)) := by
    simp only [to_timestamp, e1, e2, e3, e4, e5, e6]
    rw [to_int32_small _ (by omega) (by omega), to_int32_small _ (by omega) (by omega),
      to_int32_small _ (by omega) (by omega), to_int32_small _ (by omega) (by omega),
      fmt_0d_two_digits _ hHH, fmt_0d_two_digits _ (by omega), fmt_0d_two_digits _ (by omega),
      fmt_0d_three_digits _ hmm]
    rfl
  refine ⟨n * 10 / 3600000, n * 10 % 3600000 / 60000, n * 10 % 60000 / 1000, n * 10 % 1000,
    hHH, hMM, hSS, hmm, by omega, hts, ?_⟩
  rw [hts]
  rfl

/-- C9, witness: `t = 500`, five seconds. -/
theorem C9_main_timestamp_format_witness :
    ∃ HH MM SS mmm : Nat, HH < 100 ∧ MM < 60 ∧ SS < 60 ∧ mmm < 1000 ∧
      (3600000 * (HH : Int) + 60000 * MM + 1000 * SS + mmm = 10 * 500) ∧
      to_timestamp 500 =
        String.mk (field2 HH ++ [':'] ++ field2 MM ++ [':'] ++ field2 SS ++ ['.'] ++
          field3 mmm) ∧
      (to_timestamp 500).length = 12 :=
  C9_main_timestamp_format 500 (by decide) (by decide)

/-- C10: `to_timestamp` of `main.cpp` gives `00:00:05.000` for `t = 500` and
`00:01:00.000` for `t = 6000`, not the `00:05.000` and `01:00.000` of the
comment above the function. -/
theorem C10_main_timestamp_documented_examples :
    to_timestamp 500 = "00:00:05.000" ∧ to_timestamp 6000 = "00:01:00.000" ∧
      to_timestamp 500 ≠ "00:05.000" ∧ to_timestamp 6000 ≠ "01:00.000" := by
  decide

end Main

namespace Stream

theorem arg_effect_of_set (stoi : String → Option Int) (lid : String → Int) (arg : String)
    (p p2 : whisper_params) (h : parse_arg stoi lid arg p = .set p2)
    (ht : takes_value arg = false)
    (hn : p2.no_context = (p.no_context && !(arg == "-kc" || arg == "--keep-context")))
    (hs : p.no_timestamps = true → p2.no_timestamps = true) :
    ArgEffect stoi lid arg p := by
  constructor
  · intro p1 h1
    rw [h] at h1
    injection h1 with h1
    subst h1
    exact ⟨ht, hn, hs⟩
  · intro f v p1 hf _
    rw [h] at hf
    cases hf

theorem arg_effect_of_value (stoi : String → Option Int) (lid : String → Int) (arg : String)
    (p : whisper_params) (g : String → ParseResult) (h : parse_arg stoi lid arg p = .value g)
    (ht : takes_value arg = true)
    (hg : ∀ v p1, g v = .ok p1 →
      p1.no_context = p.no_context ∧ p1.no_timestamps = p.no_timestamps) :
    ArgEffect stoi lid arg p := by
  constructor
  · intro p1 h1
    rw [h] at h1
    cases h1
  · intro f v p1 hf hv
    rw [h] at hf
    injection hf with hf
    subst hf
    exact ⟨ht, hg v p1 hv⟩

theorem arg_effect_of_exit (stoi : String → Option Int) (lid : String → Int) (arg : String)
    (p : whisper_params) (c : Int) (h : parse_arg stoi lid arg p = .exit c) :
    ArgEffect stoi lid arg p := by
  constructor
  · intro p1 h1
    rw [h] at h1
    cases h1
  · intro f v p1 hf _
    rw [h] at hf
    cases hf

theorem stoi_case (stoi : String → Option Int) (v : String) (k : Int → whisper_params)
    (p1 : whisper_params)
    (h : (match stoi v with
      | none => ParseResult.undefined
      | some n => ParseResult.ok (k n)) = .ok p1) : ∃ n, p1 = k n := by
  cases hs : stoi v with
  | none => rw [hs] at h; cases h
  | some n =>
    rw [hs] at h
    injection h with h
    exact ⟨n, h.symm⟩

/-- Every argument has the effect `ArgEffect`: the `if` chain of `parse_arg`, option by option. -/
theorem parse_arg_effect (stoi : String → Option Int) (lid : String → Int) (arg : String)
    (p : whisper_params) : ArgEffect stoi lid arg p := by
  by_cases h0 : arg = "-s"
  · subst h0
    refine arg_effect_of_value stoi lid _ p _ rfl (by decide) ?_
    intro v p1 hv
    obtain ⟨n, rfl⟩ := stoi_case stoi v _ p1 hv
    exact ⟨rfl, rfl⟩
  by_cases h1 : arg = "--seed"
  · subst h1
    refine arg_effect_of_value stoi lid _ p _ rfl (by decide) ?_
    intro v p1 hv
    obtain ⟨n, rfl⟩ := stoi_case stoi v _ p1 hv
    exact ⟨rfl, rfl⟩
  by_cases h2 : arg = "-t"
  · subst h2
    refine arg_effect_of_value stoi lid _ p _ rfl (by decide) ?_
    intro v p1 hv
    obtain ⟨n, rfl⟩ := stoi_case stoi v _ p1 hv
    exact ⟨rfl, rfl⟩
  by_cases h3 : arg = "--threads"
  · subst h3
    refine arg_effect_of_value stoi lid _ p _ rfl (by decide) ?_
    intro v p1 hv
    obtain ⟨n, rfl⟩ := stoi_case stoi v _ p1 hv
    exact ⟨rfl, rfl⟩
  by_cases h4 : arg = "--step"
  · subst h4
    refine arg_effect_of_value stoi lid _ p _ rfl (by decide) ?_
    intro v p1 hv
    obtain ⟨n, rfl⟩ := stoi_case stoi v _ p1 hv
    exact ⟨rfl, rfl⟩
  by_cases h5 : arg = "--length"
  · subst h5
    refine arg_effect_of_value stoi lid _ p _ rfl (by decide) ?_
    intro v p1 hv
    obtain ⟨n, rfl⟩ := stoi_case stoi v _ p1 hv
    exact ⟨rfl, rfl⟩
  by_cases h6 : arg = "-v"
  · subst h6; exact arg_effect_of_set stoi lid _ p _ rfl (by decide) (by simp) (by simp)
  by_cases h7 : arg = "--verbose"
  · subst h7; exact arg_effect_of_set stoi lid _ p _ rfl (by decide) (by simp) (by simp)
  by_cases h8 : arg = "--translate"
  · subst h8; exact arg_effect_of_set stoi lid _ p _ rfl (by decide) (by simp) (by simp)
  by_cases h9 : arg = "-kc"
  · subst h9; exact arg_effect_of_set stoi lid _ p _ rfl (by decide) (by simp) (by simp)
  by_cases h10 : arg = "--keep-context"
  · subst h10; exact arg_effect_of_set stoi lid _ p _ rfl (by decide) (by simp) (by simp)
  by_cases h11 : arg = "-l"
  · subst h11
    refine arg_effect_of_value stoi lid _ p _ rfl (by decide) ?_
    intro v p1 hv
    by_cases hl : lid v = -1
    · rw [if_pos hl] at hv; cases hv
    · rw [if_neg hl] at hv; injection hv with hv; subst hv; exact ⟨rfl, rfl⟩
  by_cases h12 : arg = "--language"
  · subst h12
    refine arg_effect_of_value stoi lid _ p _ rfl (by decide) ?_
    intro v p1 hv
    by_cases hl : lid v = -1
    · rw [if_pos hl] at hv; cases hv
    · rw [if_neg hl] at hv; injection hv with hv; subst hv; exact ⟨rfl, rfl⟩
  by_cases h13 : arg = "-ps"
  · subst h13; exact arg_effect_of_set stoi lid _ p _ rfl (by decide) (by simp) (by simp)
  by_cases h14 : arg = "--print_special"
  · subst h14; exact arg_effect_of_set stoi lid _ p _ rfl (by decide) (by simp) (by simp)
  by_cases h15 : arg = "-nt"
  · subst h15; exact arg_effect_of_set stoi lid _ p _ rfl (by decide) (by simp) (by simp)
  by_cases h16 : arg = "--no_timestamps"
  · subst h16; exact arg_effect_of_set stoi lid _ p _ rfl (by decide) (by simp) (by simp)
  by_cases h17 : arg = "-m"
  · subst h17
    refine arg_effect_of_value stoi lid _ p _ rfl (by decide) ?_
    intro v p1 hv
    injection hv with hv; subst hv; exact ⟨rfl, rfl⟩
  by_cases h18 : arg = "--model"
  · subst h18
    refine arg_effect_of_value stoi lid _ p _ rfl (by decide) ?_
    intro v p1 hv
    injection hv with hv; subst hv; exact ⟨rfl, rfl⟩
  by_cases h19 : arg = "-f"
  · subst h19
    refine arg_effect_of_value stoi lid _ p _ rfl (by decide) ?_
    intro v p1 hv
    injection hv with hv; subst hv; exact ⟨rfl, rfl⟩
  by_cases h20 : arg = "--file"
  · subst h20
    refine arg_effect_of_value stoi lid _ p _ rfl (by decide) ?_
    intro v p1 hv
    injection hv with hv; subst hv; exact ⟨rfl, rfl⟩
  by_cases h21 : arg = "-h"
  · subst h21; exact arg_effect_of_exit stoi lid _ p 0 rfl
  by_cases h22 : arg = "--help"
  · subst h22; exact arg_effect_of_exit stoi lid _ p 0 rfl
  refine arg_effect_of_exit stoi lid arg p 0 ?_
  unfold parse_arg
  rw [if_neg (not_or.mpr ⟨h0, h1⟩),
    if_neg (not_or.mpr ⟨h2, h3⟩),
    if_neg h4,
    if_neg h5,
    if_neg (not_or.mpr ⟨h6, h7⟩),
    if_neg h8,
    if_neg (not_or.mpr ⟨h9, h10⟩),
    if_neg (not_or.mpr ⟨h11, h12⟩),
    if_neg (not_or.mpr ⟨h13, h14⟩),
    if_neg (not_or.mpr ⟨h15, h16⟩),
    if_neg (not_or.mpr ⟨h17, h18⟩),
    if_neg (not_or.mpr ⟨h19, h20⟩),
    if_neg (not_or.mpr ⟨h21, h22⟩)]

theorem keep_context_given_flag (arg : String) (rest : List String)
    (h : takes_value arg = false) :
    keep_context_given (arg :: rest) =
      ((arg == "-kc" || arg == "--keep-context") || keep_context_given rest) := by
  cases rest with
  | nil => rw [keep_context_given.eq_2, if_neg (by simp [h])]
  | cons v r => rw [keep_context_given.eq_3, if_neg (by simp [h])]

theorem keep_context_given_value (arg v : String) (rest : List String)
    (h : takes_value arg = true) :
    keep_context_given (arg :: v :: rest) = keep_context_given rest := by
  rw [keep_context_given.eq_3, if_pos h]

/-- The flags after a parse that returns: `no_context` is cleared exactly when
`-kc`/`--keep-context` occurs in option position, and `no_timestamps`, once
`true`, stays `true`. -/
theorem parse_flags (stoi : String → Option Int) (lid : String → Int) :
    ∀ (n : Nat) (args : List String), args.length ≤ n → ∀ (p0 p : whisper_params),
      whisper_params_parse stoi lid args p0 = .ok p →
      p.no_context = (p0.no_context && !keep_context_given args) ∧
      (p0.no_timestamps = true → p.no_timestamps = true) := by
  intro n
  induction n using Nat.strong_induction_on with
  | _ n ih =>
    intro args hlen p0 p h
    match args, hlen, h with
    | [], _, h =>
      rw [whisper_params_parse] at h
      injection h with h
      subst h
      simp [keep_context_given]
    | arg :: rest, hlen, h =>
      have hn : 0 < n := by simp at hlen; omega
      have hl1 : rest.length ≤ n - 1 := by simp at hlen; omega
      obtain ⟨hset, hval⟩ := parse_arg_effect stoi lid arg p0
      rw [whisper_params_parse] at h
      cases hpa : parse_arg stoi lid arg p0 with
      | set p1 =>
        rw [hpa] at h
        obtain ⟨ht, hnc, hts⟩ := hset p1 hpa
        obtain ⟨i1, i2⟩ := ih (n - 1) (by omega) rest hl1 p1 p h
        refine ⟨?_, fun h0 => i2 (hts h0)⟩
        rw [i1, hnc, keep_context_given_flag arg rest ht]
        cases p0.no_context <;> simp
      | exit c =>
        rw [hpa] at h
        cases h
      | value f =>
        rw [hpa] at h
        dsimp only at h
        match rest, hl1, h with
        | [], _, h => cases h
        | v :: rest2, hl1, h =>
          have hl2 : rest2.length ≤ n - 2 := by simp at hl1; omega
          have hn2 : 1 < n := by simp at hl1; omega
          dsimp only at h
          cases hf : f v with
          | ok p1 =>
            rw [hf] at h
            obtain ⟨ht, hnc, hts⟩ := hval f v p1 hpa hf
            obtain ⟨i1, i2⟩ := ih (n - 2) (by omega) rest2 hl2 p1 p h
            refine ⟨?_, fun h0 => i2 (by rw [hts]; exact h0)⟩
            rw [i1, hnc, keep_context_given_value arg v rest2 ht]
          | exit c =>
            rw [hf] at h
            cases h
          | undefined =>
            rw [hf] at h
            cases h

end Stream

namespace Stream

theorem capability_check_flags (m : Int) (p : whisper_params) :
    (capability_check m p).1.no_context = p.no_context ∧
      (capability_check m p).1.no_timestamps = p.no_timestamps := by
  unfold capability_check
  by_cases h1 : m = 0
  · rw [if_pos h1]
    by_cases h2 : p.language ≠ "en" ∨ p.translate = true
    · rw [if_pos h2]
      exact ⟨rfl, rfl⟩
    · rw [if_neg h2]
      exact ⟨rfl, rfl⟩
  · rw [if_neg h1]
    exact ⟨rfl, rfl⟩

/-- What `main` hands to `whisper_full` when the parser returns. -/
theorem main_wparams_inv (stoi : String → Option Int) (lid : String → Int)
    (hw m : Int) (dflt : whisper_full_params) (args : List String) (wp : whisper_full_params)
    (h : main_wparams stoi lid hw m dflt args = some wp) :
    ∃ p, whisper_params_parse stoi lid args { n_threads := hw } = .ok p ∧
      wp.no_context = p.no_context ∧ wp.print_timestamps = !p.no_timestamps := by
  unfold main_wparams at h
  cases hp : whisper_params_parse stoi lid args { n_threads := hw } with
  | ok p =>
    rw [hp] at h
    injection h with h
    subst h
    obtain ⟨h1, h2⟩ := capability_check_flags m p
    exact ⟨p, rfl, h1, by simp [inference_params, h2]⟩
  | exit c => rw [hp] at h; cases h
  | undefined => rw [hp] at h; cases h

/-- Whatever the accepted arguments, `print_timestamps` is `false` in the stream example. -/
theorem print_timestamps_always_false (stoi : String → Option Int) (lid : String → Int)
    (hw m : Int) (dflt : whisper_full_params) (args : List String) (wp : whisper_full_params)
    (h : main_wparams stoi lid hw m dflt args = some wp) :
    wp.print_timestamps = false := by
  obtain ⟨p, hp, _, h2⟩ := main_wparams_inv stoi lid hw m dflt args wp h
  obtain ⟨_, h3⟩ := parse_flags stoi lid args.length args (Nat.le_refl _) _ p hp
  rw [h2, h3 rfl]
  rfl

/-- C11: for every argument list the parser accepts, the `no_context` flag
handed to `whisper_full` is `false` if and only if `-kc` or `--keep-context`
occurs in option position; without it the flag is `true`, context carry-over
is off, as the usage text says (default: false). -/
theorem C11_keep_context_option (stoi : String → Option Int) (lid : String → Int)
    (hw m : Int) (dflt : whisper_full_params) (args : List String) (wp : whisper_full_params)
    (h : main_wparams stoi lid hw m dflt args = some wp) :
    (wp.no_context = false ↔ keep_context_given args = true) ∧
      (keep_context_given args = false → wp.no_context = true) := by
  obtain ⟨p, hp, h1, _⟩ := main_wparams_inv stoi lid hw m dflt args wp h
  obtain ⟨h3, _⟩ := parse_flags stoi lid args.length args (Nat.le_refl _) _ p hp
  rw [h1, h3]
  cases keep_context_given args <;> simp

/-- C11, witness: the arguments `-t 8 -kc`. -/
theorem C11_keep_context_option_witness :
    ((inference_params wparams_dflt { n_threads := 8, no_context := false }).no_context = false ↔
        keep_context_given ["-t", "8", "-kc"] = true) ∧
      (keep_context_given ["-t", "8", "-kc"] = false →
        (inference_params wparams_dflt { n_threads := 8, no_context := false }).no_context
          = true) :=
  C11_keep_context_option stoi_dec lang_id_demo 4 0 wparams_dflt ["-t", "8", "-kc"]
    (inference_params wparams_dflt { n_threads := 8, no_context := false }) (by decide)

/-- C12: with no arguments at all, the parser returns the defaults, in which
`no_timestamps` is `true`: the `print_timestamps` flag handed to
`whisper_full` is `false` and a segment is printed as its bare text, without
`[t0 --> t1]`; no option sets `no_timestamps` to `false`. -/
theorem C12_timestamps_off_without_option :
    whisper_params_parse stoi_dec lang_id_demo [] { n_threads := 4 } = .ok { n_threads := 4 } ∧
      ({ n_threads := 4 } : whisper_params).no_timestamps = true ∧
      main_wparams stoi_dec lang_id_demo 4 1 wparams_dflt [] =
        some (inference_params wparams_dflt { n_threads := 4 }) ∧
      (inference_params wparams_dflt { n_threads := 4 }).print_timestamps = false ∧
      print_segment { n_threads := 4 } 0 550 " hello" = " hello" ∧
      main_wparams stoi_dec lang_id_demo 4 1 wparams_dflt ["-nt"] =
        some (inference_params wparams_dflt { n_threads := 4 }) := by
  decide

end Stream

namespace Main

theorem to_int32_frames (x : Nat) (h : x < 2 ^ 31) : to_int32 (x : Int) = (x : Int) := by
  unfold to_int32
  norm_num at h ⊢
  omega

/-- After a full read the buffer `pcm16` holds the samples of the file. -/
theorem read_pcm16_full (n : Nat) (wav : Wav) (hread : wav.framesReadable = n) (j : Nat)
    (hj : j < n * wav.channels) :
    (read_pcm16 n wav).length = n * wav.channels ∧
      (read_pcm16 n wav)[j]? = some (wav.sample j) ∧
      (read_pcm16 n wav).getD j 0 = wav.sample j := by
  have hl : (read_pcm16 n wav).length = n * wav.channels := by
    unfold read_pcm16
    rw [vec_fill_length, vec_resize_length]
  have hg : (read_pcm16 n wav)[j]? = some (wav.sample j) := by
    unfold read_pcm16
    rw [vec_fill_getElem?, vec_resize_length, hread, Nat.min_self, if_pos (by omega),
      Nat.sub_zero]
  refine ⟨hl, hg, ?_⟩
  rw [List.getD_eq_getElem?_getD, hg]
  rfl

/-- Lines 177-194 when the sample count fits an `int`. -/
theorem pcm_to_mono_eq (wav : Wav) (hn : wav.totalPCMFrameCount * wav.channels < 2 ^ 31)
    (hc : 1 ≤ wav.channels) :
    pcm_to_mono wav =
      some (vec_fill (vec_resize ([] : List ℚ) wav.totalPCMFrameCount) 0
        wav.totalPCMFrameCount
        (fun i =>
          if wav.channels = 1 then
            (((read_pcm16 wav.totalPCMFrameCount wav).getD i 0 : Int) : ℚ) / 32768
          else
            (((read_pcm16 wav.totalPCMFrameCount wav).getD (2 * i) 0 +
              (read_pcm16 wav.totalPCMFrameCount wav).getD (2 * i + 1) 0 : Int) : ℚ) /
              65536)) := by
  have hlt : wav.totalPCMFrameCount < 2 ^ 31 :=
    lt_of_le_of_lt (Nat.le_mul_of_pos_right _ hc) hn
  have e : to_int32 (wav.totalPCMFrameCount : Int) = (wav.totalPCMFrameCount : Int) :=
    to_int32_frames _ hlt
  have hguard : ¬ ((wav.totalPCMFrameCount : Int) < 0 ∨
      (wav.totalPCMFrameCount : Int) * (wav.channels : Int) ≥ 2 ^ 31) := by
    have h2 : ((wav.totalPCMFrameCount * wav.channels : Nat) : Int) < 2 ^ 31 := by
      exact_mod_cast hn
    push_cast at h2
    intro hh
    rcases hh with hh | hh
    · omega
    · omega
  unfold pcm_to_mono
  simp only [e, hguard, if_false, Int.toNat_ofNat]
  by_cases h1 : wav.channels = 1
  · simp only [h1, if_true]
  · simp only [h1, if_false]

theorem pcm_to_mono_length (wav : Wav) (out : List ℚ)
    (hn : wav.totalPCMFrameCount * wav.channels < 2 ^ 31) (hc : 1 ≤ wav.channels)
    (h : pcm_to_mono wav = some out) : out.length = wav.totalPCMFrameCount := by
  rw [pcm_to_mono_eq wav hn hc] at h
  injection h with h
  rw [← h, vec_fill_length, vec_resize_length]

theorem pcm_to_mono_getElem? (wav : Wav) (out : List ℚ)
    (hn : wav.totalPCMFrameCount * wav.channels < 2 ^ 31) (hc : 1 ≤ wav.channels)
    (h : pcm_to_mono wav = some out) (i : Nat) (hi : i < wav.totalPCMFrameCount) :
    out[i]? =
      some (if wav.channels = 1 then
          (((read_pcm16 wav.totalPCMFrameCount wav).getD i 0 : Int) : ℚ) / 32768
        else
          (((read_pcm16 wav.totalPCMFrameCount wav).getD (2 * i) 0 +
            (read_pcm16 wav.totalPCMFrameCount wav).getD (2 * i + 1) 0 : Int) : ℚ) /
            65536) := by
  rw [pcm_to_mono_eq wav hn hc] at h
  injection h with h
  have hcond : 0 ≤ i ∧ i < 0 + wav.totalPCMFrameCount ∧
      i < (vec_resize ([] : List ℚ) wav.totalPCMFrameCount).length := by
    rw [vec_resize_length]
    omega
  rw [← h, vec_fill_getElem?, if_pos hcond, Nat.sub_zero]

theorem process_file_open_fail {C : Type} (env : MainEnv C) (st : MainState C)
    (fname : String) (h : env.open_wav fname = none) :
    process_file env st fname = .exit 3 st := by
  unfold process_file
  rw [h]

/-- The loop body on a file that opens, check by check. -/
theorem process_file_opened {C : Type} (env : MainEnv C) (st : MainState C)
    (fname : String) (wav : Wav) (h : env.open_wav fname = some wav) :
    (¬ (wav.channels = 1 ∨ wav.channels = 2) → process_file env st fname = .exit 4 st) ∧
    ((wav.channels = 1 ∨ wav.channels = 2) → wav.sampleRate ≠ 16000 →
      process_file env st fname = .exit 5 st) ∧
    ((wav.channels = 1 ∨ wav.channels = 2) → wav.sampleRate = 16000 →
      wav.bitsPerSample ≠ 16 → process_file env st fname = .exit 6 st) ∧
    ((wav.channels = 1 ∨ wav.channels = 2) → wav.sampleRate = 16000 →
      wav.bitsPerSample = 16 → ∀ pcmf32, pcm_to_mono wav = some pcmf32 →
      (process_file env st fname).inferred = st.inferred ++ [fname] ∧
      ((env.whisper_full st.ctx
          (inference_params env.dflt
            (capability_check (env.is_multilingual st.ctx) st.params).1) pcmf32).1 ≠ 0 →
        ∃ s, process_file env st fname = .exit 7 s ∧
          s.inferred = st.inferred ++ [fname])) ∧
    ((process_file env st fname).inferred = st.inferred ++ [fname] →
      (wav.channels = 1 ∨ wav.channels = 2) ∧ wav.sampleRate = 16000 ∧
        wav.bitsPerSample = 16) := by
  have hne : st.inferred ≠ st.inferred ++ [fname] := by
    intro he
    have := congrArg List.length he
    simp at this
  have hcneg : (wav.channels = 1 ∨ wav.channels = 2) →
      ¬ (wav.channels ≠ 1 ∧ wav.channels ≠ 2) := by
    intro hc hh
    rcases hc with h1 | h1
    · exact hh.1 h1
    · exact hh.2 h1
  have h4 : ¬ (wav.channels = 1 ∨ wav.channels = 2) →
      process_file env st fname = .exit 4 st := by
    intro hc
    unfold process_file
    rw [h]
    show ite _ _ _ = _
    rw [if_pos (not_or.mp hc)]
  have h5 : (wav.channels = 1 ∨ wav.channels = 2) → wav.sampleRate ≠ 16000 →
      process_file env st fname = .exit 5 st := by
    intro hc hs
    unfold process_file
    rw [h]
    show ite _ _ _ = _
    rw [if_neg (hcneg hc), if_pos (by simpa [WHISPER_SAMPLE_RATE] using hs)]
  have h6 : (wav.channels = 1 ∨ wav.channels = 2) → wav.sampleRate = 16000 →
      wav.bitsPerSample ≠ 16 → process_file env st fname = .exit 6 st := by
    intro hc hs hb
    unfold process_file
    rw [h]
    show ite _ _ _ = _
    rw [if_neg (hcneg hc), if_neg (by simpa [WHISPER_SAMPLE_RATE] using hs), if_pos hb]
  refine ⟨h4, h5, h6, ?_, ?_⟩
  · intro hc hs hb pcmf32 hp
    have hs2 : ¬ wav.sampleRate ≠ WHISPER_SAMPLE_RATE := fun hh => hh hs
    have hb2 : ¬ wav.bitsPerSample ≠ 16 := fun hh => hh hb
    constructor
    · unfold process_file
      rw [h]
      show FileResult.inferred (ite _ _ _) = _
      rw [if_neg (hcneg hc), if_neg hs2, if_neg hb2, hp]
      show FileResult.inferred (ite _ _ _) = _
      split_ifs <;> rfl
    · intro hr
      unfold process_file
      rw [h]
      show ∃ s, ite _ _ _ = _ ∧ _
      rw [if_neg (hcneg hc), if_neg hs2, if_neg hb2, hp]
      exact ⟨_, if_pos hr, rfl⟩
  · intro hinf
    by_cases hc : wav.channels = 1 ∨ wav.channels = 2
    · by_cases hs : wav.sampleRate = 16000
      · by_cases hb : wav.bitsPerSample = 16
        · exact ⟨hc, hs, hb⟩
        · rw [h6 hc hs hb] at hinf
          exact absurd hinf hne
      · rw [h5 hc hs] at hinf
        exact absurd hinf hne
    · rw [h4 hc] at hinf
      exact absurd hinf hne

theorem process_files_exit {C : Type} (env : MainEnv C) (st s : MainState C) (fname : String)
    (fs : List String) (code : Int) (h : process_file env st fname = .exit code s) :
    process_files env (fname :: fs) st = .returned code s.inferred := by
  rw [process_files, h]

theorem main_run_cons {C : Type} (env : MainEnv C) (whisper_init : String → C)
    (params : whisper_params) (fname : String) (fs : List String)
    (h : params.fname_inp = fname :: fs) :
    main_run env whisper_init params =
      process_files env (fname :: fs)
        { params := params, ctx := whisper_init params.model, inferred := [] } := by
  simp [main_run, h]

/-- C13, counterexample: a mono 16 kHz 16-bit file of `2^31` frames has a
valid header, yet `main` does not process it: the frame count narrowed to
`int` is negative, the program stops in `resize` and `whisper_full` is never
called. -/
theorem C13_counterexample_huge_file :
    (wav_huge.channels = 1 ∨ wav_huge.channels = 2) ∧ wav_huge.sampleRate = 16000 ∧
      wav_huge.bitsPerSample = 16 ∧
      to_int32 (wav_huge.totalPCMFrameCount : Int) = -2 ^ 31 ∧
      main_run (env_demo wav_huge 0) (fun _ => ())
        { n_threads := 4, fname_inp := ["a.wav"] } = .crashed [] := by
  decide

/-- C13, amended: for a file that opens, `main` returns 4, 5 or 6 for the
first failing check among `channels` is 1 or 2, `sampleRate = 16000`,
`bitsPerSample = 16`, without calling `whisper_full` on that file; the file
is handed to `whisper_full` only if all three hold, and it is whenever they
hold and its sample count `frames * channels` is below `2^31`; a file that
does not open gives 3, an empty input list gives 2, a non-zero result of
`whisper_full` gives 7; the six codes differ.  The statements are made of
the file loop at any file (`process_files`, any state) and of `main` at its
first file. -/
theorem C13_wav_validation_exit_codes {C : Type} (env : MainEnv C) (st : MainState C)
    (fname : String) (fs : List String) (whisper_init : String → C)
    (params : whisper_params) :
    (∀ wav, env.open_wav fname = some wav →
      (¬ (wav.channels = 1 ∨ wav.channels = 2) →
        process_files env (fname :: fs) st = .returned 4 st.inferred ∧
        (params.fname_inp = fname :: fs →
          main_run env whisper_init params = .returned 4 [])) ∧
      ((wav.channels = 1 ∨ wav.channels = 2) → wav.sampleRate ≠ 16000 →
        process_files env (fname :: fs) st = .returned 5 st.inferred ∧
        (params.fname_inp = fname :: fs →
          main_run env whisper_init params = .returned 5 [])) ∧
      ((wav.channels = 1 ∨ wav.channels = 2) → wav.sampleRate = 16000 →
        wav.bitsPerSample ≠ 16 →
        process_files env (fname :: fs) st = .returned 6 st.inferred ∧
        (params.fname_inp = fname :: fs →
          main_run env whisper_init params = .returned 6 [])) ∧
      ((process_file env st fname).inferred = st.inferred ++ [fname] →
        (wav.channels = 1 ∨ wav.channels = 2) ∧ wav.sampleRate = 16000 ∧
          wav.bitsPerSample = 16) ∧
      ((wav.channels = 1 ∨ wav.channels = 2) → wav.sampleRate = 16000 →
        wav.bitsPerSample = 16 → wav.totalPCMFrameCount * wav.channels < 2 ^ 31 →
        ∃ pcmf32, pcm_to_mono wav = some pcmf32 ∧
          (process_file env st fname).inferred = st.inferred ++ [fname] ∧
          ((env.whisper_full st.ctx
              (inference_params env.dflt
                (capability_check (env.is_multilingual st.ctx) st.params).1) pcmf32).1 ≠ 0 →
            process_files env (fname :: fs) st = .returned 7 (st.inferred ++ [fname])) ∧
          ((env.whisper_full (whisper_init params.model)
              (inference_params env.dflt
                (capability_check (env.is_multilingual (whisper_init params.model))
                  params).1) pcmf32).1 ≠ 0 →
            params.fname_inp = fname :: fs →
            main_run env whisper_init params = .returned 7 [fname]))) ∧
    (env.open_wav fname = none →
      process_files env (fname :: fs) st = .returned 3 st.inferred ∧
      (params.fname_inp = fname :: fs →
        main_run env whisper_init params = .returned 3 [])) ∧
    (params.fname_inp = [] → main_run env whisper_init params = .returned 2 []) ∧
    ([2, 3, 4, 5, 6, 7] : List Int).Nodup := by
  refine ⟨?_, ?_, ?_, by decide⟩
  · intro wav h
    obtain ⟨h4, h5, h6, hok, honly⟩ := process_file_opened env st fname wav h
    obtain ⟨g4, g5, g6, gok, _⟩ := process_file_opened env
      { params := params, ctx := whisper_init params.model, inferred := [] } fname wav h
    refine ⟨?_, ?_, ?_, honly, ?_⟩
    · intro hc
      refine ⟨process_files_exit env st st fname fs 4 (h4 hc), fun hp => ?_⟩
      rw [main_run_cons env whisper_init params fname fs hp,
        process_files_exit env _ _ fname fs 4 (g4 hc)]
    · intro hc hs
      refine ⟨process_files_exit env st st fname fs 5 (h5 hc hs), fun hp => ?_⟩
      rw [main_run_cons env whisper_init params fname fs hp,
        process_files_exit env _ _ fname fs 5 (g5 hc hs)]
    · intro hc hs hb
      refine ⟨process_files_exit env st st fname fs 6 (h6 hc hs hb), fun hp => ?_⟩
      rw [main_run_cons env whisper_init params fname fs hp,
        process_files_exit env _ _ fname fs 6 (g6 hc hs hb)]
    · intro hc hs hb hn
      have hc1 : 1 ≤ wav.channels := by omega
      refine ⟨_, pcm_to_mono_eq wav hn hc1, (hok hc hs hb _ (pcm_to_mono_eq wav hn hc1)).1,
        ?_, ?_⟩
      · intro hr
        obtain ⟨s, hs1, hs2⟩ := (hok hc hs hb _ (pcm_to_mono_eq wav hn hc1)).2 hr
        rw [process_files_exit env st s fname fs 7 hs1, hs2]
      · intro hr hp
        obtain ⟨s, hs1, hs2⟩ := (gok hc hs hb _ (pcm_to_mono_eq wav hn hc1)).2 hr
        rw [main_run_cons env whisper_init params fname fs hp,
          process_files_exit env _ s fname fs 7 hs1, hs2]
        rfl
  · intro h
    refine ⟨process_files_exit env st st fname fs 3 (process_file_open_fail env st fname h),
      fun hp => ?_⟩
    rw [main_run_cons env whisper_init params fname fs hp,
      process_files_exit env _ _ fname fs 3 (process_file_open_fail env _ fname h)]
  · intro he
    simp [main_run, he]

/-- C13, at concrete inputs: a stereo 8 kHz file is refused with code 5
before `whisper_full` is called; a valid file is processed; a failing
`whisper_full` gives 7. -/
theorem C13_examples :
    main_run (env_demo { wav_demo with sampleRate := 8000 } 0) (fun _ => ())
        { n_threads := 4, fname_inp := ["a.wav"] } = .returned 5 [] ∧
      main_run (env_demo wav_demo 0) (fun _ => ())
        { n_threads := 4, fname_inp := ["a.wav"] } = .returned 0 ["a.wav"] ∧
      main_run (env_demo wav_demo 1) (fun _ => ())
        { n_threads := 4, fname_inp := ["a.wav", "b.wav"] } = .returned 7 ["a.wav"] := by
  decide

/-- C15, counterexample: for the mono input of `2^31` frames (all samples
16-bit, all frames readable) the conversion gives no output at all, so not
`2^31` samples: the frame count narrowed to `int` is negative. -/
theorem C15_counterexample_huge_input :
    wav_huge.channels = 1 ∧ wav_huge.framesReadable = wav_huge.totalPCMFrameCount ∧
      wav_huge.totalPCMFrameCount = 2 ^ 31 ∧
      (∀ j, -32768 ≤ wav_huge.sample j ∧ wav_huge.sample j ≤ 32767) ∧
      pcm_to_mono wav_huge = none ∧
      ¬ ∃ out, pcm_to_mono wav_huge = some out ∧ out.length = wav_huge.totalPCMFrameCount := by
  have hnone : pcm_to_mono wav_huge = none := by decide
  refine ⟨rfl, rfl, rfl, fun _ => ⟨(by decide : (-32768 : Int) ≤ 0), (by decide : (0 : Int) ≤ 32767)⟩, hnone, ?_⟩
  rintro ⟨out, ho, _⟩
  rw [hnone] at ho
  cases ho

/-- C15, amended: for every input of `n` frames of 16-bit samples, `channels`
1 or 2, whose sample count `n * channels` is below `2^31` (the code counts
and indexes in `int`), the conversion of `main.cpp` gives exactly `n`
samples; the buffer `pcm16` holds the input; mono sample `i` is
`pcm16[i]/32768`; stereo sample `i` is `(pcm16[2i] + pcm16[2i+1])/65536`,
the mean of the two channels' mono conversions, the integer sum staying
within `int`; every output sample lies in `[-1, 1)`. -/
theorem C15_pcm_to_mono_float (wav : Wav)
    (hch : wav.channels = 1 ∨ wav.channels = 2)
    (hn : wav.totalPCMFrameCount * wav.channels < 2 ^ 31)
    (hread : wav.framesReadable = wav.totalPCMFrameCount)
    (hr : ∀ j, -32768 ≤ wav.sample j ∧ wav.sample j ≤ 32767) :
    ∃ out, pcm_to_mono wav = some out ∧ out.length = wav.totalPCMFrameCount ∧
      (wav.channels = 1 → ∀ i, (hi : i < wav.totalPCMFrameCount) →
        ∃ a, (read_pcm16 wav.totalPCMFrameCount wav)[i]? = some a ∧
          out[i]? = some ((a : ℚ) / 32768)) ∧
      (wav.channels = 2 → ∀ i, (hi : i < wav.totalPCMFrameCount) →
        ∃ a b, (read_pcm16 wav.totalPCMFrameCount wav)[2 * i]? = some a ∧
          (read_pcm16 wav.totalPCMFrameCount wav)[2 * i + 1]? = some b ∧
          out[i]? = some (((a : ℚ) + b) / 65536) ∧
          ((a : ℚ) + b) / 65536 = ((a : ℚ) / 32768 + (b : ℚ) / 32768) / 2 ∧
          -2 ^ 31 ≤ a + b ∧ a + b < 2 ^ 31) ∧
      (∀ y ∈ out, -1 ≤ y ∧ y < 1) := by
  have hc1 : 1 ≤ wav.channels := by omega
  have hp := pcm_to_mono_eq wav hn hc1
  refine ⟨_, hp, pcm_to_mono_length wav _ hn hc1 hp, ?_, ?_, ?_⟩
  · intro h1 i hi
    obtain ⟨_, hg, hd⟩ := read_pcm16_full wav.totalPCMFrameCount wav hread i
      (by rw [h1]; omega)
    refine ⟨wav.sample i, hg, ?_⟩
    rw [pcm_to_mono_getElem? wav _ hn hc1 hp i hi, if_pos h1, hd]
  · intro h2 i hi
    obtain ⟨_, hg, hd⟩ := read_pcm16_full wav.totalPCMFrameCount wav hread (2 * i)
      (by rw [h2]; omega)
    obtain ⟨_, hg2, hd2⟩ := read_pcm16_full wav.totalPCMFrameCount wav hread (2 * i + 1)
      (by rw [h2]; omega)
    have ha := hr (2 * i)
    have hb := hr (2 * i + 1)
    refine ⟨wav.sample (2 * i), wav.sample (2 * i + 1), hg, hg2, ?_, by ring, by omega,
      by omega⟩
    rw [pcm_to_mono_getElem? wav _ hn hc1 hp i hi, if_neg (by omega), hd, hd2]
    push_cast
    rfl
  · intro y hy
    obtain ⟨i, hi, rfl⟩ := List.getElem_of_mem hy
    have hin : i < wav.totalPCMFrameCount := by
      rwa [pcm_to_mono_length wav _ hn hc1 hp] at hi
    have hget := pcm_to_mono_getElem? wav _ hn hc1 hp i hin
    rw [List.getElem?_eq_getElem hi] at hget
    injection hget with hget
    rw [hget]
    by_cases h1 : wav.channels = 1
    · obtain ⟨_, _, hd⟩ := read_pcm16_full wav.totalPCMFrameCount wav hread i
        (by rw [h1]; omega)
      have ha := hr i
      rw [if_pos h1, hd]
      have h1' : ((-32768 : Int) : ℚ) ≤ ((wav.sample i : Int) : ℚ) := by
        exact_mod_cast ha.1
      have h2' : ((wav.sample i : Int) : ℚ) ≤ ((32767 : Int) : ℚ) := by
        exact_mod_cast ha.2
      constructor
      · rw [le_div_iff₀ (by norm_num)]
        push_cast at h1'
        linarith
      · rw [div_lt_iff₀ (by norm_num)]
        push_cast at h2'
        linarith
    · have h2 : wav.channels = 2 := by omega
      obtain ⟨_, _, hd⟩ := read_pcm16_full wav.totalPCMFrameCount wav hread (2 * i)
        (by rw [h2]; omega)
      obtain ⟨_, _, hd2⟩ := read_pcm16_full wav.totalPCMFrameCount wav hread (2 * i + 1)
        (by rw [h2]; omega)
      have ha := hr (2 * i)
      have hb := hr (2 * i + 1)
      rw [if_neg h1, hd, hd2]
      have h1' : ((-65536 : Int) : ℚ) ≤
          ((wav.sample (2 * i) + wav.sample (2 * i + 1) : Int) : ℚ) := by
        exact_mod_cast (by omega : (-65536 : Int) ≤ _)
      have h2' : ((wav.sample (2 * i) + wav.sample (2 * i + 1) : Int) : ℚ) ≤
          ((65534 : Int) : ℚ) := by
        exact_mod_cast (by omega : _ ≤ (65534 : Int))
      constructor
      · rw [le_div_iff₀ (by norm_num)]
        push_cast at h1' ⊢
        linarith
      · rw [div_lt_iff₀ (by norm_num)]
        push_cast at h2' ⊢
        linarith

/-- C15, witness: two stereo frames at the extremes of the 16-bit range. -/
theorem C15_pcm_to_mono_float_witness :
    ∃ out, pcm_to_mono wav_demo = some out ∧ out.length = 2 ∧
      (∀ y ∈ out, -1 ≤ y ∧ y < 1) :=
  match C15_pcm_to_mono_float wav_demo (Or.inr rfl) (by decide) rfl
    (fun j => by unfold wav_demo; dsimp only; split <;> decide) with
  | ⟨out, h1, h2, _, _, h5⟩ => ⟨out, h1, h2, h5⟩

end Main

namespace Sampling

/-- The scan returns an index of a maximal entry, the first such. -/
theorem scan_best_spec {β : Type} [LinearOrder β] :
    ∀ (xs pre : List β) (best : Nat) (bv : β),
      pre[best]? = some bv →
      (∀ (j : Nat) x, pre[j]? = some x → x ≤ bv) →
      (∀ (j : Nat) x, j < best → pre[j]? = some x → x < bv) →
      ∃ v, (pre ++ xs)[scan_best xs pre.length best bv]? = some v ∧
        (∀ (j : Nat) x, (pre ++ xs)[j]? = some x → x ≤ v) ∧
        (∀ (j : Nat) x, j < scan_best xs pre.length best bv → (pre ++ xs)[j]? = some x → x < v) := by
  intro xs
  induction xs with
  | nil =>
    intro pre best bv hb hmax hfirst
    simp only [scan_best, List.append_nil]
    exact ⟨bv, hb, hmax, hfirst⟩
  | cons x xs ih =>
    intro pre best bv hb hmax hfirst
    have hbl : best < pre.length := by
      by_contra hge
      rw [List.getElem?_eq_none (by omega)] at hb
      cases hb
    have hlen : (pre ++ [x]).length = pre.length + 1 := by simp
    have happ : pre ++ x :: xs = (pre ++ [x]) ++ xs := by simp
    have hget : ∀ j y, (pre ++ [x])[j]? = some y →
        (j < pre.length ∧ pre[j]? = some y) ∨ (j = pre.length ∧ y = x) := by
      intro j y hy
      by_cases hj : j < pre.length
      · left
        rw [List.getElem?_append_left hj] at hy
        exact ⟨hj, hy⟩
      · right
        rw [List.getElem?_append_right (by omega)] at hy
        by_cases hj2 : j - pre.length = 0
        · rw [hj2] at hy
          simp at hy
          exact ⟨by omega, hy.symm⟩
        · rw [List.getElem?_eq_none (by simp; omega)] at hy
          cases hy
    unfold scan_best
    by_cases hlt : bv < x
    · rw [if_pos hlt, happ, ← hlen]
      apply ih (pre ++ [x]) pre.length x
      · rw [List.getElem?_append_right (Nat.le_refl _)]
        simp
      · intro j y hy
        rcases hget j y hy with ⟨_, h1⟩ | ⟨_, h1⟩
        · exact le_of_lt (lt_of_le_of_lt (hmax j y h1) hlt)
        · rw [h1]
      · intro j y hj hy
        rcases hget j y hy with ⟨_, h1⟩ | ⟨h0, _⟩
        · exact lt_of_le_of_lt (hmax j y h1) hlt
        · omega
    · rw [if_neg hlt, happ, ← hlen]
      apply ih (pre ++ [x]) best bv
      · rw [List.getElem?_append_left hbl]
        exact hb
      · intro j y hy
        rcases hget j y hy with ⟨_, h1⟩ | ⟨_, h1⟩
        · exact hmax j y h1
        · rw [h1]
          exact not_lt.mp hlt
      · intro j y hj hy
        rcases hget j y hy with ⟨_, h1⟩ | ⟨h0, _⟩
        · exact hfirst j y hj h1
        · omega

theorem sample_best_spec {β : Type} [LinearOrder β] (probs : List β) (hne : probs ≠ []) :
    ∃ v, probs[whisper_sample_best probs]? = some v ∧
      (∀ (j : Nat) x, probs[j]? = some x → x ≤ v) ∧
      (∀ (j : Nat) x, j < whisper_sample_best probs → probs[j]? = some x → x < v) := by
  cases probs with
  | nil => exact absurd rfl hne
  | cons x xs =>
    have h := scan_best_spec xs [x] 0 x rfl
      (by
        intro j y hy
        cases j with
        | zero => simp at hy; rw [hy]
        | succ j => simp at hy)
      (by intro j y hj; omega)
    simpa [whisper_sample_best] using h

/-- C14: on a non-empty vector `whisper_sample_best` returns the index of a
maximum over the whole vector, and `whisper_sample_timestamp` (with
`token_beg` inside the vector) the index of a maximum over the ids from
`token_beg` on; every entry at a lower id of the range is strictly smaller
(ties go to the lowest id); equal vectors give equal tokens. -/
theorem C14_greedy_sampling {β : Type} [LinearOrder β] (probs : List β) (token_beg : Nat)
    (hbeg : token_beg < probs.length) :
    (∃ v, probs[whisper_sample_best probs]? = some v ∧
      (∀ (j : Nat) x, probs[j]? = some x → x ≤ v) ∧
      (∀ (j : Nat) x, j < whisper_sample_best probs → probs[j]? = some x → x < v)) ∧
    (token_beg ≤ whisper_sample_timestamp probs token_beg ∧
      ∃ v, probs[whisper_sample_timestamp probs token_beg]? = some v ∧
        (∀ (j : Nat) x, token_beg ≤ j → probs[j]? = some x → x ≤ v) ∧
        (∀ (j : Nat) x, token_beg ≤ j → j < whisper_sample_timestamp probs token_beg →
          probs[j]? = some x → x < v)) ∧
    (∀ probs2 : List β, probs2 = probs →
      whisper_sample_best probs2 = whisper_sample_best probs ∧
      whisper_sample_timestamp probs2 token_beg = whisper_sample_timestamp probs token_beg) := by
  have hne : probs ≠ [] := by
    intro he
    rw [he] at hbeg
    simp at hbeg
  have hne2 : probs.drop token_beg ≠ [] := by
    intro he
    have := congrArg List.length he
    simp at this
    omega
  refine ⟨sample_best_spec probs hne, ⟨Nat.le_add_right _ _, ?_⟩, ?_⟩
  · obtain ⟨v, h1, h2, h3⟩ := sample_best_spec (probs.drop token_beg) hne2
    refine ⟨v, ?_, ?_, ?_⟩
    · rw [List.getElem?_drop] at h1
      exact h1
    · intro j x hj hx
      apply h2 (j - token_beg) x
      rw [List.getElem?_drop]
      rw [show token_beg + (j - token_beg) = j by omega]
      exact hx
    · intro j x hj hlt hx
      apply h3 (j - token_beg) x
      · unfold whisper_sample_timestamp at hlt
        omega
      · rw [List.getElem?_drop]
        rw [show token_beg + (j - token_beg) = j by omega]
        exact hx
  · intro probs2 he
    rw [he]
    exact ⟨rfl, rfl⟩

/-- C14, witness: a vector with ties, the timestamp tokens starting at id 2. -/
theorem C14_greedy_sampling_witness :
    whisper_sample_best ([1, 5, 3, 5, 2, 5] : List Int) = 1 ∧
      whisper_sample_timestamp ([9, 5, 3, 5, 2, 5] : List Int) 2 = 3 ∧
      2 ≤ whisper_sample_timestamp ([9, 5, 3, 5, 2, 5] : List Int) 2 :=
  ⟨by decide, by decide,
    (C14_greedy_sampling ([9, 5, 3, 5, 2, 5] : List Int) 2 (by decide)).2.1.1⟩

end Sampling

namespace Emscripten

theorem dec_size_t_zero (w : Nat) (hw : 3 ≤ w) : 4 ≤ dec_size_t w 0 := by
  have h8 : 2 ^ 3 ≤ 2 ^ w := Nat.pow_le_pow_right (by decide) hw
  have hlt : 2 ^ w - 1 < 2 ^ w := by omega
  unfold dec_size_t
  rw [Nat.zero_add, Nat.mod_eq_of_lt hlt]
  omega

theorem dec_size_t_pos (w h : Nat) (h1 : 1 ≤ h) (hh : h < 2 ^ w) : dec_size_t w h = h - 1 := by
  unfold dec_size_t
  have e : h + 2 ^ w - 1 = (h - 1) + 2 ^ w := by omega
  rw [e, Nat.add_mod_right, Nat.mod_eq_of_lt (by omega)]

/-- The three exits of `full_default`, by handle. -/
theorem full_default_cases {C α : Type} (w : Nat)
    (wf : C → Stream.whisper_full_params → List α → Int) (dflt : Stream.whisper_full_params)
    (g : List (Option C)) (h : Nat) (audio : List α)
    (hw : 3 ≤ w) (hh : h < 2 ^ w) (hg : g.length = 4) :
    ((h = 0 ∨ h > 4) → full_default w wf dflt g h audio = (-1, g, [])) ∧
    ((1 ≤ h ∧ h ≤ 4) → g.getD (h - 1) none = none →
      full_default w wf dflt g h audio = (-2, g, [])) ∧
    ((1 ≤ h ∧ h ≤ 4) → ∀ c, g.getD (h - 1) none = some c →
      full_default w wf dflt g h audio = (wf c (full_default_params dflt) audio, g, [c])) := by
  refine ⟨?_, ?_, ?_⟩
  · intro h0
    have hge : dec_size_t w h ≥ g.length := by
      rcases h0 with h0 | h0
      · rw [h0, hg]
        exact dec_size_t_zero w hw
      · rw [dec_size_t_pos w h (by omega) hh, hg]
        omega
    unfold full_default
    simp only [hge, if_true]
  · intro h1 hn
    have hlt : ¬ (dec_size_t w h ≥ g.length) := by
      rw [dec_size_t_pos w h h1.1 hh, hg]
      omega
    unfold full_default
    simp only [hlt, if_false]
    rw [dec_size_t_pos w h h1.1 hh, hn]
  · intro h1 c hc
    have hlt : ¬ (dec_size_t w h ≥ g.length) := by
      rw [dec_size_t_pos w h h1.1 hh, hg]
      omega
    unfold full_default
    simp only [hlt, if_false]
    rw [dec_size_t_pos w h h1.1 hh, hc]

/-- C16, counterexample: handle 1 is valid and slot 0 is occupied, yet
`full_default` returns `-1`, the value `whisper_full` returned. -/
theorem C16_counterexample_inner_error :
    (full_default 32 (fun (_ : Nat) _ (_ : List Nat) => -1) Stream.wparams_dflt
        [some 7, none, none, none] 1 []).1 = -1 ∧
      ([some 7, none, none, none] : List (Option Nat)).getD (1 - 1) none = some 7 ∧
      ¬ ((1 : Nat) = 0 ∨ (1 : Nat) > 4) := by
  decide

/-- C16, amended: `full_default` returns `-1` when `h = 0` or `h > 4` and `-2`
when `1 <= h <= 4` and slot `h-1` is empty, in both cases without calling
`whisper_full`; otherwise it calls `whisper_full` once, on slot `h-1`'s
context, and returns exactly its value; so a result of `-1` or `-2` comes from
the handle checks or is the value `whisper_full` returned; the table is
unchanged in every case. -/
theorem C16_full_default_codes {C α : Type} (w : Nat)
    (wf : C → Stream.whisper_full_params → List α → Int) (dflt : Stream.whisper_full_params)
    (g : List (Option C)) (h : Nat) (audio : List α)
    (hw : 3 ≤ w) (hh : h < 2 ^ w) (hg : g.length = 4) :
    ((h = 0 ∨ h > 4) → full_default w wf dflt g h audio = (-1, g, [])) ∧
    ((1 ≤ h ∧ h ≤ 4) → g.getD (h - 1) none = none →
      full_default w wf dflt g h audio = (-2, g, [])) ∧
    ((1 ≤ h ∧ h ≤ 4) → ∀ c, g.getD (h - 1) none = some c →
      full_default w wf dflt g h audio = (wf c (full_default_params dflt) audio, g, [c])) ∧
    ((full_default w wf dflt g h audio).1 = -1 →
      (h = 0 ∨ h > 4) ∨
      ∃ c, g.getD (h - 1) none = some c ∧ wf c (full_default_params dflt) audio = -1) ∧
    ((full_default w wf dflt g h audio).1 = -2 →
      ((1 ≤ h ∧ h ≤ 4) ∧ g.getD (h - 1) none = none) ∨
      ∃ c, g.getD (h - 1) none = some c ∧ wf c (full_default_params dflt) audio = -2) ∧
    (full_default w wf dflt g h audio).2.1 = g := by
  obtain ⟨hA, hB, hD⟩ := full_default_cases w wf dflt g h audio hw hh hg
  refine ⟨hA, hB, hD, ?_, ?_, ?_⟩
  · intro hr
    by_cases h0 : h = 0 ∨ h > 4
    · exact Or.inl h0
    · have h1 : 1 ≤ h ∧ h ≤ 4 := by omega
      cases hs : g.getD (h - 1) none with
      | none =>
        rw [hB h1 hs] at hr
        have hr2 : (-2 : Int) = -1 := hr
        exact absurd hr2 (by decide)
      | some c =>
        rw [hD h1 c hs] at hr
        exact Or.inr ⟨c, rfl, hr⟩
  · intro hr
    by_cases h0 : h = 0 ∨ h > 4
    · rw [hA h0] at hr
      have hr2 : (-1 : Int) = -2 := hr
      exact absurd hr2 (by decide)
    · have h1 : 1 ≤ h ∧ h ≤ 4 := by omega
      cases hs : g.getD (h - 1) none with
      | none => exact Or.inl ⟨h1, rfl⟩
      | some c =>
        rw [hD h1 c hs] at hr
        exact Or.inr ⟨c, rfl, hr⟩
  · by_cases h0 : h = 0 ∨ h > 4
    · rw [hA h0]
    · have h1 : 1 ≤ h ∧ h ≤ 4 := by omega
      cases hs : g.getD (h - 1) none with
      | none => rw [hB h1 hs]
      | some c => rw [hD h1 c hs]

/-- C16, witness: handle 3 on a table whose slot 2 holds a context, 32-bit `size_t`. -/
theorem C16_full_default_codes_witness :
    full_default 32 (fun (c : Nat) _ (_ : List Nat) => (c : Int)) Stream.wparams_dflt
      [some 1, none, some 3, none] 3 [] = (3, [some 1, none, some 3, none], [3]) :=
  (C16_full_default_codes 32 (fun (c : Nat) _ (_ : List Nat) => (c : Int)) Stream.wparams_dflt
    [some 1, none, some 3, none] 3 [] (by decide) (by decide) rfl).2.2.1
      ⟨by decide, by decide⟩ 3 rfl

theorem free_valid {C : Type} (w : Nat) (g : List (Option C)) (h : Nat)
    (hh : h < 2 ^ w) (hg : g.length = 4) (h1 : 1 ≤ h ∧ h ≤ 4) :
    free w g h = (g.set (h - 1) none, [g.getD (h - 1) none]) := by
  unfold free
  simp only [dec_size_t_pos w h h1.1 hh]
  rw [if_pos (by omega)]

theorem free_invalid {C : Type} (w : Nat) (g : List (Option C)) (h : Nat)
    (hw : 3 ≤ w) (hh : h < 2 ^ w) (hg : g.length = 4) (h0 : h = 0 ∨ h > 4) :
    free w g h = (g, []) := by
  have hge : ¬ (dec_size_t w h < g.length) := by
    rcases h0 with h0 | h0
    · rw [h0, hg]
      have := dec_size_t_zero w hw
      omega
    · rw [dec_size_t_pos w h (by omega) hh, hg]
      omega
  unfold free
  simp only [hge, if_false]

/-- C17: for `1 <= h <= 4`, `free(h)` leaves slot `h-1` empty and the other
slots as they were, so `full_default(h)` then returns `-2` and `init` then
returns a handle between 1 and `h`; for `h = 0` and `h > 4` the table is
unchanged and `whisper_free` is not called. -/
theorem C17_free_slot {C α : Type} (w : Nat)
    (wf : C → Stream.whisper_full_params → List α → Int) (dflt : Stream.whisper_full_params)
    (whisper_init : String → Option C) (path_model : String)
    (g : List (Option C)) (h : Nat) (audio : List α)
    (hw : 3 ≤ w) (hh : h < 2 ^ w) (hg : g.length = 4) :
    ((1 ≤ h ∧ h ≤ 4) →
      (free w g h).1.getD (h - 1) none = none ∧
      (∀ j, j ≠ h - 1 → (free w g h).1.getD j none = g.getD j none) ∧
      (free w g h).1.length = 4 ∧
      (full_default w wf dflt (free w g h).1 h audio).1 = -2 ∧
      1 ≤ (init whisper_init path_model (free w g h).1).1 ∧
      (init whisper_init path_model (free w g h).1).1 ≤ h) ∧
    ((h = 0 ∨ h > 4) → free w g h = (g, [])) := by
  refine ⟨?_, free_invalid w g h hw hh hg⟩
  intro h1
  have hf := free_valid w g h hh hg h1
  have hlen : (free w g h).1.length = 4 := by rw [hf]; simpa using hg
  have hslot : (free w g h).1.getD (h - 1) none = none := by
    rw [hf]
    simp only [List.getD_eq_getElem?_getD, List.getElem?_set, if_true]
    split <;> rfl
  refine ⟨hslot, ?_, hlen, ?_, ?_⟩
  · intro j hj
    rw [hf]
    simp only [List.getD_eq_getElem?_getD]
    rw [List.getElem?_set_ne (Ne.symm hj)]
  · rw [(full_default_cases w wf dflt (free w g h).1 h audio hw hh hlen).2.1 h1 hslot]
  · obtain ⟨a, b, c, d, hab⟩ : ∃ a b c d, (free w g h).1 = [a, b, c, d] := by
      match (free w g h).1, hlen with
      | [a, b, c, d], _ => exact ⟨a, b, c, d, rfl⟩
    rw [hab] at hslot ⊢
    obtain ⟨h1a, h1b⟩ := h1
    interval_cases h <;> cases a <;> cases b <;> cases c <;> cases d <;>
      simp_all [init, init_loop]

/-- C17, witness: freeing handle 3 of a table with slots 0 and 2 occupied, 32-bit `size_t`. -/
theorem C17_free_slot_witness :
    free 32 ([some 1, none, some 3, none] : List (Option Nat)) 3 =
        ([some 1, none, none, none], [some 3]) ∧
      (full_default 32 (fun (c : Nat) _ (_ : List Nat) => (c : Int)) Stream.wparams_dflt
        (free 32 ([some 1, none, some 3, none] : List (Option Nat)) 3).1 3 []).1 = -2 :=
  ⟨by decide,
    ((C17_free_slot 32 (fun (c : Nat) _ (_ : List Nat) => (c : Int)) Stream.wparams_dflt
      (fun _ => some 9) "ggml-base.en.bin" [some 1, none, some 3, none] 3 []
      (by decide) (by decide) rfl).1 ⟨by decide, by decide⟩).2.2.2.1⟩

end Emscripten

theorem digit_char_lt (a b : Nat) (h : a % 10 < b % 10) : digit_char a < digit_char b := by
  have key : ∀ x y : Fin 10, x < y → Char.ofNat (48 + x.val) < Char.ofNat (48 + y.val) := by
    decide
  exact key ⟨a % 10, Nat.mod_lt _ (by decide)⟩ ⟨b % 10, Nat.mod_lt _ (by decide)⟩ h

theorem digit_char_eq (a b : Nat) (h : a % 10 = b % 10) : digit_char a = digit_char b := by
  unfold digit_char
  rw [h]

theorem chars_lt_head (a b : Nat) (r1 r2 : List Char) (h : a % 10 < b % 10) :
    List.Lex (· < ·) (digit_char a :: r1) (digit_char b :: r2) :=
  List.Lex.rel (digit_char_lt a b h)

theorem chars_lt_tail (a b : Nat) (r1 r2 : List Char) (h : a % 10 = b % 10)
    (hr : List.Lex (· < ·) r1 r2) :
    List.Lex (· < ·) (digit_char a :: r1) (digit_char b :: r2) := by
  rw [digit_char_eq a b h]
  exact List.Lex.cons hr

theorem chars_lt_sep (c : Char) (r1 r2 : List Char) (hr : List.Lex (· < ·) r1 r2) :
    List.Lex (· < ·) (c :: r1) (c :: r2) :=
  List.Lex.cons hr

namespace Main

/-- The string `to_timestamp` builds for `0 <= t < 36000000`, field by field. -/
theorem to_timestamp_fields (n : Nat) (hn : n < 36000000) :
    to_timestamp (n : Int) =
      String.mk (field2 (n * 10 / 3600000) ++ [':'] ++ field2 (n * 10 % 3600000 / 60000) ++
        [':'] ++ field2 (n * 10 % 60000 / 1000) ++ ['.'] ++ field3 (n * 10 % 1000)) := by
  have e1 : Int.tdiv ((n : Int) * 10) (1000 * 60 * 60) = ((n * 10 / 3600000 : Nat) : Int) := by
    rw [Int.tdiv_eq_ediv (by omega) (by norm_num)]
    norm_num
  have e2 : (n : Int) * 10 - ((n * 10 / 3600000 : Nat) : Int) * (1000 * 60 * 60) =
      ((n * 10 % 3600000 : Nat) : Int) := by
    omega
  have e3 : Int.tdiv ((n * 10 % 3600000 : Nat) : Int) (1000 * 60) =
      ((n * 10 % 3600000 / 60000 : Nat) : Int) := by
    rw [Int.tdiv_eq_ediv (by omega) (by norm_num)]
    norm_num
  have e4 : ((n * 10 % 3600000 : Nat) : Int) -
      ((n * 10 % 3600000 / 60000 : Nat) : Int) * (1000 * 60) =
      ((n * 10 % 60000 : Nat) : Int) := by
    omega
  have e5 : Int.tdiv ((n * 10 % 60000 : Nat) : Int) 1000 =
      ((n * 10 % 60000 / 1000 : Nat) : Int) := by
    rw [Int.tdiv_eq_ediv (by omega) (by norm_num)]
    norm_num
  have e6 : ((n * 10 % 60000 : Nat) : Int) - ((n * 10 % 60000 / 1000 : Nat) : Int) * 1000 =
      ((n * 10 % 1000 : Nat) : Int) := by
    omega
  simp only [to_timestamp, e1, e2, e3, e4, e5, e6]
  rw [to_int32_small _ (by omega) (by omega), to_int32_small _ (by omega) (by omega),
    to_int32_small _ (by omega) (by omega), to_int32_small _ (by omega) (by omega),
    fmt_0d_two_digits _ (by omega), fmt_0d_two_digits _ (by omega),
    fmt_0d_two_digits _ (by omega), fmt_0d_three_digits _ (by omega)]
  rfl

/-- Lexicographic order of the twelve characters, from the digits: `x1 .. x8`
and `y1 .. y8` are the digits of two times in milliseconds, weighted as in
`HH:MM:SS.mmm`, the last digit being 0. -/
theorem digits_chars_lt (x1 x2 x3 x4 x5 x6 x7 x8 y1 y2 y3 y4 y5 y6 y7 y8 : Nat)
    (hx : x1 ≤ 9 ∧ x2 ≤ 9 ∧ x3 ≤ 5 ∧ x4 ≤ 9 ∧ x5 ≤ 5 ∧ x6 ≤ 9 ∧ x7 ≤ 9 ∧ x8 ≤ 9)
    (hy : y1 ≤ 9 ∧ y2 ≤ 9 ∧ y3 ≤ 5 ∧ y4 ≤ 9 ∧ y5 ≤ 5 ∧ y6 ≤ 9 ∧ y7 ≤ 9 ∧ y8 ≤ 9)
    (h : 36000000 * x1 + 3600000 * x2 + 600000 * x3 + 60000 * x4 + 10000 * x5 + 1000 * x6 +
        100 * x7 + 10 * x8 <
      36000000 * y1 + 3600000 * y2 + 600000 * y3 + 60000 * y4 + 10000 * y5 + 1000 * y6 +
        100 * y7 + 10 * y8) :
    List.Lex (· < ·)
      (digit_char x1 :: digit_char x2 :: ':' :: digit_char x3 :: digit_char x4 :: ':' ::
        digit_char x5 :: digit_char x6 :: '.' :: digit_char x7 :: digit_char x8 ::
        [digit_char 0])
      (digit_char y1 :: digit_char y2 :: ':' :: digit_char y3 :: digit_char y4 :: ':' ::
        digit_char y5 :: digit_char y6 :: '.' :: digit_char y7 :: digit_char y8 ::
        [digit_char 0]) := by
  obtain ⟨a1, a2, a3, a4, a5, a6, a7, a8⟩ := hx
  obtain ⟨b1, b2, b3, b4, b5, b6, b7, b8⟩ := hy
  by_cases c1 : x1 < y1
  · exact chars_lt_head _ _ _ _ (by omega)
  have e1 : x1 = y1 := by omega
  subst e1
  refine chars_lt_tail _ _ _ _ rfl ?_
  by_cases c2 : x2 < y2
  · exact chars_lt_head _ _ _ _ (by omega)
  have e2 : x2 = y2 := by omega
  subst e2
  refine chars_lt_tail _ _ _ _ rfl (chars_lt_sep _ _ _ ?_)
  by_cases c3 : x3 < y3
  · exact chars_lt_head _ _ _ _ (by omega)
  have e3 : x3 = y3 := by omega
  subst e3
  refine chars_lt_tail _ _ _ _ rfl ?_
  by_cases c4 : x4 < y4
  · exact chars_lt_head _ _ _ _ (by omega)
  have e4 : x4 = y4 := by omega
  subst e4
  refine chars_lt_tail _ _ _ _ rfl (chars_lt_sep _ _ _ ?_)
  by_cases c5 : x5 < y5
  · exact chars_lt_head _ _ _ _ (by omega)
  have e5 : x5 = y5 := by omega
  subst e5
  refine chars_lt_tail _ _ _ _ rfl ?_
  by_cases c6 : x6 < y6
  · exact chars_lt_head _ _ _ _ (by omega)
  have e6 : x6 = y6 := by omega
  subst e6
  refine chars_lt_tail _ _ _ _ rfl (chars_lt_sep _ _ _ ?_)
  by_cases c7 : x7 < y7
  · exact chars_lt_head _ _ _ _ (by omega)
  have e7 : x7 = y7 := by omega
  subst e7
  refine chars_lt_tail _ _ _ _ rfl ?_
  exact chars_lt_head _ _ _ _ (by omega)

/-- The twelve characters of `to_timestamp` are the digit characters of the
time in milliseconds, `n * 10`. -/
theorem timestamp_chars_digits (n : Nat) (hn : n < 36000000) :
    ∃ x1 x2 x3 x4 x5 x6 x7 x8 : Nat,
      (x1 ≤ 9 ∧ x2 ≤ 9 ∧ x3 ≤ 5 ∧ x4 ≤ 9 ∧ x5 ≤ 5 ∧ x6 ≤ 9 ∧ x7 ≤ 9 ∧ x8 ≤ 9) ∧
      36000000 * x1 + 3600000 * x2 + 600000 * x3 + 60000 * x4 + 10000 * x5 + 1000 * x6 +
        100 * x7 + 10 * x8 = n * 10 ∧
      (to_timestamp (n : Int)).data =
        digit_char x1 :: digit_char x2 :: ':' :: digit_char x3 :: digit_char x4 :: ':' ::
          digit_char x5 :: digit_char x6 :: '.' :: digit_char x7 :: digit_char x8 ::
          [digit_char 0] := by
  refine ⟨n * 10 / 3600000 / 10 % 10, n * 10 / 3600000 % 10,
    n * 10 % 3600000 / 60000 / 10 % 10, n * 10 % 3600000 / 60000 % 10,
    n * 10 % 60000 / 1000 / 10 % 10, n * 10 % 60000 / 1000 % 10,
    n * 10 % 1000 / 100 % 10, n * 10 % 1000 / 10 % 10, ?_, ?_, ?_⟩
  · omega
  · omega
  · rw [to_timestamp_fields n hn]
    have h0 : n * 10 % 1000 % 10 = 0 := by omega
    simp only [field2, field3, digit_char, Nat.mod_mod, h0, List.cons_append, List.nil_append,
      List.append_assoc]

/-- C18: for `0 <= t1 < t2 < 36000000`, `to_timestamp t1` is strictly smaller
than `to_timestamp t2` in the lexicographic order of their characters (the
order of strings); so `to_timestamp` is injective on that range. -/
theorem C18_timestamp_order (t1 t2 : Int) (h0 : 0 ≤ t1) (h12 : t1 < t2)
    (h2 : t2 < 36000000) :
    to_timestamp t1 < to_timestamp t2 ∧
      List.Lex (· < ·) (to_timestamp t1).data (to_timestamp t2).data ∧
      (∀ a b : Int, 0 ≤ a → a < 36000000 → 0 ≤ b → b < 36000000 →
        to_timestamp a = to_timestamp b → a = b) := by
  have mono : ∀ a b : Int, 0 ≤ a → a < b → b < 36000000 →
      List.Lex (· < ·) (to_timestamp a).data (to_timestamp b).data := by
    intro a b ha hab hb
    obtain ⟨n1, rfl⟩ := Int.eq_ofNat_of_zero_le ha
    obtain ⟨n2, rfl⟩ := Int.eq_ofNat_of_zero_le (by omega : (0 : Int) ≤ b)
    have h1 : n1 < n2 := by omega
    have h3 : n2 < 36000000 := by omega
    obtain ⟨x1, x2, x3, x4, x5, x6, x7, x8, hx, sx, ex⟩ :=
      timestamp_chars_digits n1 (by omega)
    obtain ⟨y1, y2, y3, y4, y5, y6, y7, y8, hy, sy, ey⟩ := timestamp_chars_digits n2 h3
    rw [ex, ey]
    exact digits_chars_lt x1 x2 x3 x4 x5 x6 x7 x8 y1 y2 y3 y4 y5 y6 y7 y8 hx hy (by omega)
  have irr : ∀ l : List Char, ¬ List.Lex (· < ·) l l := fun l hl => lt_irrefl l hl
  refine ⟨String.lt_iff_toList_lt.mpr (mono t1 t2 h0 h12 h2), mono t1 t2 h0 h12 h2, ?_⟩
  intro a b ha0 ha hb0 hb he
  by_contra hne
  rcases lt_or_gt_of_ne hne with hlt | hgt
  · have := mono a b ha0 hlt hb
    rw [he] at this
    exact irr _ this
  · have := mono b a hb0 hgt ha
    rw [he] at this
    exact irr _ this

/-- C18, witness: 59.99 s and one minute. -/
theorem C18_timestamp_order_witness :
    to_timestamp 5999 < to_timestamp 6000 :=
  (C18_timestamp_order 5999 6000 (by decide) (by decide) (by decide)).1

end Main

namespace Stream

end Stream
